import Mathlib

/-!
Shallow embedding of the raindrop-bookmark-sync extension core
(src/background/storage.ts, src/background/queue.ts,
src/background/syncManager.ts, src/utils/hash.ts) and proofs about it.

Persistent browser storage is modelled as explicit state: the stored link
list, folder-mapping list, sync queue, stats record and processing lock are
fields of explicit structures that every operation threads through.  The
single-writer storage lock of storage.ts serialises all mutations, so each
exported mutating function is embedded as one pure state transformer.
-/

namespace RaindropSync

/-! ## Data model (src/types/storage.ts) -/

/-- `FolderMapping` from src/types/storage.ts. -/
structure FolderMapping where
  id : String
  firefoxFolderId : String
  raindropCollectionId : Nat
  folderName : String
  raindropCollectionName : String
  parentMappingId : Option String
  depth : Nat
  lastSync : Nat
  syncChildren : Bool
  deriving Repr, DecidableEq

/-- `BookmarkLink` from src/types/storage.ts (syncStatus kept as a string). -/
structure BookmarkLink where
  id : String
  firefoxId : String
  raindropId : Nat
  url : String
  title : String
  lastModified : Nat
  contentHash : String
  syncStatus : String
  mappingId : String
  errorMessage : Option String := none
  deriving Repr, DecidableEq

/-- Operation type of a `SyncOperation`. -/
inductive OpType where
  | create | update | delete | move
  deriving Repr, DecidableEq

/-- Operation source of a `SyncOperation`. -/
inductive OpSource where
  | firefox | raindrop
  deriving Repr, DecidableEq

/-- Entity type of a `SyncOperation`. -/
inductive EntityType where
  | bookmark | folder
  deriving Repr, DecidableEq

/-- `SyncOperationData` from src/types/storage.ts; all fields optional.
JavaScript `undefined` is `none`. -/
structure SyncOperationData where
  firefoxId : Option String := none
  raindropId : Option Nat := none
  url : Option String := none
  title : Option String := none
  collectionId : Option Nat := none
  parentFolderId : Option String := none
  oldCollectionId : Option Nat := none
  newCollectionId : Option Nat := none
  mappingId : Option String := none
  deriving Repr, DecidableEq

/-- `SyncOperation` from src/types/storage.ts. -/
structure SyncOperation where
  id : String
  type : OpType
  source : OpSource
  entityType : EntityType
  data : SyncOperationData
  timestamp : Nat
  retries : Nat
  maxRetries : Nat
  lastError : Option String := none
  deriving Repr, DecidableEq

/-- `SyncQueue` from src/types/storage.ts. -/
structure SyncQueue where
  pending : List SyncOperation
  failed : List SyncOperation
  deriving Repr, DecidableEq

/-- `SyncError` from src/types/storage.ts. -/
structure SyncError where
  timestamp : Nat
  operation : String
  message : String
  details : Option String := none
  deriving Repr, DecidableEq

/-- `SyncStats` from src/types/storage.ts. -/
structure SyncStats where
  totalSynced : Nat
  pendingOperations : Nat
  failedOperations : Nat
  lastSyncTime : Nat
  lastSyncStatus : String
  errors : List SyncError
  deriving Repr, DecidableEq

/-- `DEFAULT_SYNC_STATS` from src/types/storage.ts. -/
def DEFAULT_SYNC_STATS : SyncStats :=
  { totalSynced := 0, pendingOperations := 0, failedOperations := 0,
    lastSyncTime := 0, lastSyncStatus := "never", errors := [] }

/-- A raindrop item as the background code reads it (subset of
src/types/raindrop.ts: `_id`, `link`, `title`). -/
structure Raindrop where
  _id : Nat
  link : String
  title : String
  deriving Repr, DecidableEq

/-! ## Bookmark links (src/background/storage.ts, Bookmark Links section)

The stored link list is the state.  JavaScript truthiness of optional
string/number arguments is modelled explicitly (`""` and `0` are falsy). -/

/-- `addBookmarkLink` (storage.ts:255-275): append the link unless some
stored link already has the same `firefoxId` or the same `raindropId`. -/
def addBookmarkLink (links : List BookmarkLink) (link : BookmarkLink) :
    List BookmarkLink :=
  if links.any (fun l =>
      l.firefoxId == link.firefoxId || l.raindropId == link.raindropId) then
    links
  else
    links ++ [link]

/-- `removeBookmarkLink` (storage.ts:293-299): drop every link whose `id`
equals `linkId`. -/
def removeBookmarkLink (links : List BookmarkLink) (linkId : String) :
    List BookmarkLink :=
  links.filter (fun l => !(l.id == linkId))

/-- Replace the first element satisfying `p` by `f` of it: embeds the
JavaScript idiom of mutating the object returned by `Array.find` in place. -/
def setFirst (p : α → Bool) (f : α → α) : List α → List α
  | [] => []
  | x :: xs => if p x then f x :: xs else x :: setFirst p f xs

/-- `updateBookmarkLink` (storage.ts:277-291): merge `updates` into the first
link whose `id` matches; `updates` is modelled as a whole-record function. -/
def updateBookmarkLink (links : List BookmarkLink) (linkId : String)
    (updates : BookmarkLink → BookmarkLink) : List BookmarkLink :=
  if (links.find? (fun l => l.id == linkId)).isSome then
    setFirst (fun l => l.id == linkId) updates links
  else links

/-- `findBookmarkLink` (storage.ts:301-318): first lookup by `firefoxId`
(when truthy), then by `raindropId` (when truthy). -/
def findBookmarkLink (links : List BookmarkLink)
    (firefoxId : Option String := none) (raindropId : Option Nat := none) :
    Option BookmarkLink :=
  let byFirefox :=
    match firefoxId with
    | some f => if f ≠ "" then links.find? (fun l => l.firefoxId == f) else none
    | none => none
  match byFirefox with
  | some l => some l
  | none =>
    match raindropId with
    | some r => if r ≠ 0 then links.find? (fun l => l.raindropId == r) else none
    | none => none

/-- `getBookmarkLinksForMapping` (storage.ts:327-332). -/
def getBookmarkLinksForMapping (links : List BookmarkLink)
    (mappingId : String) : List BookmarkLink :=
  links.filter (fun l => l.mappingId == mappingId)

/-! ## Folder mappings (src/background/storage.ts) -/

/-- `addFolderMapping` (storage.ts:139-158): raises a duplicate-mapping error
when some mapping shares the folder id or the collection id. -/
def addFolderMapping (mappings : List FolderMapping) (mapping : FolderMapping) :
    Except String (List FolderMapping) :=
  if mappings.any (fun m =>
      m.firefoxFolderId == mapping.firefoxFolderId ||
      m.raindropCollectionId == mapping.raindropCollectionId) then
    .error "Mapping already exists for this folder or collection"
  else
    .ok (mappings ++ [mapping])

/-! ## Sync queue (src/background/storage.ts, Sync Queue section) -/

/-- The `(type, source, data.firefoxId, data.raindropId)` tuple on which
`addToQueue` deduplicates. -/
def opTuple (op : SyncOperation) :
    OpType × OpSource × Option String × Option Nat :=
  (op.type, op.source, op.data.firefoxId, op.data.raindropId)

/-- `addToQueue` (storage.ts:363-382): append to `pending` unless a pending
operation with the same tuple exists. -/
def addToQueue (queue : SyncQueue) (operation : SyncOperation) : SyncQueue :=
  if queue.pending.any (fun op => opTuple op == opTuple operation) then
    queue
  else
    { queue with pending := queue.pending ++ [operation] }

/-- `removeFromQueue` (storage.ts:384-391). -/
def removeFromQueue (queue : SyncQueue) (operationId : String) : SyncQueue :=
  { pending := queue.pending.filter (fun op => !(op.id == operationId)),
    failed := queue.failed.filter (fun op => !(op.id == operationId)) }

/-- `MAX_FAILED_QUEUE` (storage.ts:393). -/
def MAX_FAILED_QUEUE : Nat := 100

/-- `Array.prototype.slice(-n)`: the last `n` elements. -/
def sliceLast (l : List α) (n : Nat) : List α := l.drop (l.length - n)

/-- `moveToFailed` (storage.ts:395-422): find the pending operation, bump its
retry counter and record the error in place; once `retries >= maxRetries`,
remove it from `pending`, push it onto `failed` and trim `failed` to the last
`MAX_FAILED_QUEUE` entries. -/
def moveToFailed (queue : SyncQueue) (operationId : String)
    (errorMessage : String) : SyncQueue :=
  match queue.pending.find? (fun op => op.id == operationId) with
  | none => queue
  | some op =>
    let op := { op with retries := op.retries + 1, lastError := some errorMessage }
    if op.retries ≥ op.maxRetries then
      let failed := queue.failed ++ [op]
      { pending := queue.pending.filter (fun o => !(o.id == operationId)),
        failed :=
          if failed.length > MAX_FAILED_QUEUE then
            sliceLast failed MAX_FAILED_QUEUE
          else failed }
    else
      { queue with
        pending := setFirst (fun o => o.id == operationId)
          (fun o => { o with retries := o.retries + 1,
                             lastError := some errorMessage })
          queue.pending }

/-! ## Sync stats (src/background/storage.ts, Sync Stats section) -/

/-- `getSyncStats` (storage.ts:444-464): read the persisted stats record (or
the default when absent) and override `totalSynced` with the current number of
stored bookmark links. -/
def getSyncStats (stored : Option SyncStats) (links : List BookmarkLink) :
    SyncStats :=
  { stored.getD DEFAULT_SYNC_STATS with totalSynced := links.length }

/-- A partial stats record, as passed to `updateSyncStats`. -/
structure PartialSyncStats where
  totalSynced : Option Nat := none
  pendingOperations : Option Nat := none
  failedOperations : Option Nat := none
  lastSyncTime : Option Nat := none
  lastSyncStatus : Option String := none
  errors : Option (List SyncError) := none
  deriving Repr, DecidableEq

/-- JavaScript object spread `{ ...current, ...updates }` for stats. -/
def mergeStats (current : SyncStats) (updates : PartialSyncStats) : SyncStats :=
  { totalSynced := updates.totalSynced.getD current.totalSynced,
    pendingOperations := updates.pendingOperations.getD current.pendingOperations,
    failedOperations := updates.failedOperations.getD current.failedOperations,
    lastSyncTime := updates.lastSyncTime.getD current.lastSyncTime,
    lastSyncStatus := updates.lastSyncStatus.getD current.lastSyncStatus,
    errors := updates.errors.getD current.errors }

/-- `updateSyncStats` (storage.ts:466-481): merge the updates into the current
derived stats and persist the result. -/
def updateSyncStats (stored : Option SyncStats) (links : List BookmarkLink)
    (updates : PartialSyncStats) : SyncStats :=
  mergeStats (getSyncStats stored links) updates

/-- Turn a full stats record into the corresponding total update, as
`addSyncError` passes the whole record to `updateSyncStats`. -/
def statsAsPartial (s : SyncStats) : PartialSyncStats :=
  { totalSynced := some s.totalSynced,
    pendingOperations := some s.pendingOperations,
    failedOperations := some s.failedOperations,
    lastSyncTime := some s.lastSyncTime,
    lastSyncStatus := some s.lastSyncStatus,
    errors := some s.errors }

/-- `addSyncError` (storage.ts:483-493): prepend the error to the derived
stats, keep only the last 50, persist. -/
def addSyncError (stored : Option SyncStats) (links : List BookmarkLink)
    (error : SyncError) : SyncStats :=
  let stats := getSyncStats stored links
  let errs := error :: stats.errors
  let stats := { stats with errors := if errs.length > 50 then errs.take 50 else errs }
  updateSyncStats stored links (statsAsPartial stats)

/-! ## URL normalization and hashing (src/utils/hash.ts)

The WHATWG `URL` platform class is modelled by an explicit record and a
concrete parser over character lists: scheme, `://`, host (everything up to
the first `/`, `?` or `#`, ports included), pathname, search params and
fragment.  JavaScript string lower-casing is modelled on ASCII letters,
`URLSearchParams` iteration order as parse order, and the locale-dependent
`localeCompare` sort as code-point lexicographic order with a stable
insertion sort (JavaScript array sort is stable). -/

/-- ASCII lower-casing of one character (model of `toLowerCase`): code
points 65-90 are shifted to 97-122. -/
def lowerChar (c : Char) : Char :=
  if 65 ≤ c.toNat ∧ c.toNat ≤ 90 then Char.ofNat (c.toNat + 32) else c

/-- Lower-case a character list. -/
def lowerList (l : List Char) : List Char := l.map lowerChar

/-- Characters allowed in a URL scheme (model: ASCII letters, code points
97-122 and 65-90). -/
def isSchemeChar (c : Char) : Bool :=
  (97 ≤ c.toNat && c.toNat ≤ 122) || (65 ≤ c.toNat && c.toNat ≤ 90)

/-- A host character: anything before the first `/` (47), `?` (63) or
`#` (35). -/
def isHostChar (c : Char) : Bool :=
  !(c.toNat == 47 || c.toNat == 63 || c.toNat == 35)

/-- A pathname character: anything before the first `?` (63) or `#` (35). -/
def isPathChar (c : Char) : Bool := !(c.toNat == 63 || c.toNat == 35)

/-- The parsed URL record (the fields of the platform `URL` object that
`normalizeUrl` touches; `protocol` is stored without the trailing colon). -/
structure UrlParts where
  protocol : List Char
  host : List Char
  pathname : List Char
  searchParams : List (List Char × List Char)
  fragment : List Char
  deriving Repr, DecidableEq

/-- Split a character list on `&` (for `URLSearchParams` parsing). -/
def splitOnAmp : List Char → List (List Char)
  | [] => [[]]
  | c :: rest =>
    if c == '&' then [] :: splitOnAmp rest
    else
      match splitOnAmp rest with
      | [] => [[c]]
      | s :: ss => (c :: s) :: ss

/-- Parse a query string into key/value pairs: split on `&`, drop empty
segments, split each segment at its first `=`. -/
def parseQueryString (l : List Char) : List (List Char × List Char) :=
  (splitOnAmp l).filterMap fun seg =>
    if seg.isEmpty then none
    else some (seg.takeWhile (fun c => !(c == '=')),
               (seg.dropWhile (fun c => !(c == '='))).drop 1)

/-- Serialize key/value pairs back to a query string, `&`-separated
(`URLSearchParams` always emits `key=value`). -/
def serializeQuery : List (List Char × List Char) → List Char
  | [] => []
  | [p] => p.1 ++ '=' :: p.2
  | p :: rest => p.1 ++ '=' :: p.2 ++ '&' :: serializeQuery rest

/-- Parse everything after the `://`: host, pathname, query, fragment. -/
def parseTail (scheme rest : List Char) : Option UrlParts :=
  if scheme.isEmpty then none
  else if (rest.takeWhile isHostChar).isEmpty then none
  else
    match (rest.dropWhile isHostChar).dropWhile isPathChar with
    | '?' :: rest2 =>
      some { protocol := scheme, host := rest.takeWhile isHostChar,
             pathname := (rest.dropWhile isHostChar).takeWhile isPathChar,
             searchParams :=
               parseQueryString (rest2.takeWhile (fun c => !(c == '#'))),
             fragment := (rest2.dropWhile (fun c => !(c == '#'))).drop 1 }
    | '#' :: rest2 =>
      some { protocol := scheme, host := rest.takeWhile isHostChar,
             pathname := (rest.dropWhile isHostChar).takeWhile isPathChar,
             searchParams := [], fragment := rest2 }
    | _ =>
      some { protocol := scheme, host := rest.takeWhile isHostChar,
             pathname := (rest.dropWhile isHostChar).takeWhile isPathChar,
             searchParams := [], fragment := [] }

/-- Parse a URL; `none` models the `URL` constructor throwing. -/
def parseUrl (l : List Char) : Option UrlParts :=
  match l.dropWhile isSchemeChar with
  | ':' :: '/' :: '/' :: rest => parseTail (l.takeWhile isSchemeChar) rest
  | _ => none

/-- Serialize a URL record (fragment and query parts appear only when
non-empty, as in the platform `URL.toString`). -/
def urlToString (u : UrlParts) : List Char :=
  u.protocol ++ ':' :: '/' :: '/' :: u.host ++ u.pathname ++
  (if u.searchParams.isEmpty then [] else '?' :: serializeQuery u.searchParams) ++
  (if u.fragment.isEmpty then [] else '#' :: u.fragment)

/-- The tracking query parameters removed by `normalizeUrl`
(src/utils/hash.ts:53-61). -/
def trackingParams : List (List Char) :=
  ["utm_source", "utm_medium", "utm_campaign", "utm_term", "utm_content",
   "fbclid", "gclid"].map String.data

/-- Sort order used for query parameters: by key, code-point
lexicographically (model of `localeCompare`). -/
def keyLE (p q : List Char × List Char) : Prop :=
  String.mk p.1 ≤ String.mk q.1

instance : DecidableRel keyLE := fun p q =>
  inferInstanceAs (Decidable (String.mk p.1 ≤ String.mk q.1))

instance : IsTotal (List Char × List Char) keyLE :=
  ⟨fun _ _ => le_total _ _⟩

instance : IsTrans (List Char × List Char) keyLE :=
  ⟨fun _ _ _ h1 h2 => le_trans h1 h2⟩

/-- The per-field normalization of `normalizeUrl` (src/utils/hash.ts:43-82):
lower-case protocol and hostname, strip one trailing slash from a pathname
longer than one character, drop tracking parameters, stably sort the
remaining parameters by key, clear the fragment. -/
def normRec (u : UrlParts) : UrlParts :=
  { protocol := lowerList u.protocol,
    host := lowerList u.host,
    pathname :=
      if u.pathname.length > 1 ∧ u.pathname.getLast? = some '/' then
        u.pathname.dropLast
      else u.pathname,
    searchParams := List.insertionSort keyLE
      (u.searchParams.filter (fun p => !(trackingParams.contains p.1))),
    fragment := [] }

/-- Strip all trailing slashes (the `replace(/\/+$/, "")` of the fallback
branch). -/
def stripTrailingSlashes (l : List Char) : List Char :=
  (l.reverse.dropWhile (fun c => c == '/')).reverse

/-- `normalizeUrl` on character lists: parse and normalize, or fall back to
lower-casing plus trailing-slash stripping when parsing fails
(src/utils/hash.ts:39-89). -/
def normalizeUrlList (l : List Char) : List Char :=
  match parseUrl l with
  | some u => urlToString (normRec u)
  | none => stripTrailingSlashes (lowerList l)

/-- `normalizeUrl` (src/utils/hash.ts:39-89). -/
def normalizeUrl (s : String) : String := String.mk (normalizeUrlList s.data)

/-- Whitespace trimmed by the JavaScript `trim` (ASCII subset model). -/
def isJsWhitespace (c : Char) : Bool :=
  c == ' ' || c == '\t' || c == '\n' || c == '\r' ||
  c == Char.ofNat 11 || c == Char.ofNat 12

/-- Trim leading and trailing whitespace from a character list. -/
def trimList (l : List Char) : List Char :=
  (((l.dropWhile isJsWhitespace).reverse).dropWhile isJsWhitespace).reverse

/-- Model of `String.prototype.trim`. -/
def jsTrim (s : String) : String := String.mk (trimList s.data)

/-- Well-formedness of the key/value pairs a query string parses to: keys
contain no `&`, `=` or `#`; values contain no `&` or `#`. -/
def QueryWF (q : List (List Char × List Char)) : Prop :=
  ∀ p ∈ q, (∀ c ∈ p.1, c ≠ '&' ∧ c ≠ '=' ∧ c ≠ '#') ∧
    (∀ c ∈ p.2, c ≠ '&' ∧ c ≠ '#')

/-- The shape invariant every record returned by `parseUrl` satisfies. -/
def ParseWF (u : UrlParts) : Prop :=
  u.protocol ≠ [] ∧ u.protocol.all isSchemeChar = true ∧
  u.host ≠ [] ∧ u.host.all isHostChar = true ∧
  u.pathname.all isPathChar = true ∧
  (u.pathname = [] ∨ ∃ t, u.pathname = '/' :: t) ∧
  QueryWF u.searchParams

/-- The shape invariant of a normalized record: parse shape plus an empty
fragment. -/
def NormWF (u : UrlParts) : Prop := ParseWF u ∧ u.fragment = []

/-- One step of the DJB2 loop `hash = ((hash << 5) + hash) ^ charCode`, with
JavaScript 32-bit semantics folded to arithmetic mod 2^32 (the `>>> 0` at the
end makes only the bit pattern observable). -/
def hashStep (h : Nat) (c : Char) : Nat :=
  (Nat.xor ((h * 33) % 4294967296) c.toNat) % 4294967296

/-- `hashString` (src/utils/hash.ts:8-14): DJB2 over the characters, hex
encoded. -/
def hashString (s : String) : String :=
  String.mk (Nat.toDigits 16 (s.data.foldl hashStep 5381))

/-- `computeBookmarkHash` (src/utils/hash.ts:19-22). -/
def computeBookmarkHash (url title : String) : String :=
  hashString (normalizeUrl url ++ "|" ++ jsTrim title)

/-- `computeRaindropHash` (src/utils/hash.ts:27-30). -/
def computeRaindropHash (link title : String) : String :=
  hashString (normalizeUrl link ++ "|" ++ jsTrim title)

/-! ## Queue processor world (src/background/queue.ts)

All external collaborators are explicit: the Raindrop API and the browser
bookmark store are effect logs plus an id supply and a lookup oracle, the
persisted storage records are fields.  `Date.now()` is the `now` field.
Reads (`getRaindrop`) are not logged; only mutations are. -/

/-- A mutating Raindrop API call. -/
inductive RemoteCall where
  | create (link title : String) (collectionId : Nat)
  | update (raindropId : Nat) (url title : Option String)
  | updateCollection (raindropId : Nat) (collectionId : Nat)
  | delete (raindropId : Nat)
  deriving Repr, DecidableEq

/-- A mutating browser bookmark call. -/
inductive BookmarkCall where
  | create (parentId title url : String)
  | update (firefoxId title url : String)
  | remove (firefoxId : String)
  deriving Repr, DecidableEq

/-- The full state threaded through the queue processor. -/
structure World where
  links : List BookmarkLink
  mappings : List FolderMapping
  queue : SyncQueue
  stats : Option SyncStats
  lock : Option Nat
  remoteCalls : List RemoteCall
  bookmarkCalls : List BookmarkCall
  remote : Nat → Raindrop
  nextRaindropId : Nat
  nextBookmarkId : Nat
  nextLinkId : Nat
  now : Nat

/-- JavaScript `a || b` for an optional string field. -/
def jsOr (a : Option String) (b : String) : String :=
  match a with
  | some s => if s = "" then b else s
  | none => b

/-- JavaScript truthiness of an optional string (`undefined` and `""` are
falsy). -/
def truthyOpt (a : Option String) : Option String :=
  match a with
  | some s => if s = "" then none else some s
  | none => none

/-- `findMappingByFirefoxId` (storage.ts:206-211). -/
def findMappingByFirefoxId (mappings : List FolderMapping)
    (firefoxFolderId : String) : Option FolderMapping :=
  mappings.find? (fun m => m.firefoxFolderId == firefoxFolderId)

/-- `pushCreateToRaindrop` (queue.ts:197-233): validate required fields,
return successfully if a link for the Firefox id already exists, otherwise
create the raindrop and register the link. -/
def pushCreateToRaindrop (w : World) (data : SyncOperationData) :
    Except String World :=
  match data.url, data.title, data.collectionId, data.firefoxId with
  | some url, some title, some collectionId, some firefoxId =>
    if url = "" ∨ title = "" ∨ collectionId = 0 ∨ firefoxId = "" then
      .error "Missing required data for create operation"
    else if (findBookmarkLink w.links (some firefoxId) none).isSome then
      .ok w
    else
      let raindropId := w.nextRaindropId
      let link : BookmarkLink :=
        { id := "id" ++ toString w.nextLinkId, firefoxId := firefoxId,
          raindropId := raindropId, url := url, title := title,
          lastModified := w.now,
          contentHash := computeBookmarkHash url title,
          syncStatus := "synced", mappingId := data.mappingId.getD "" }
      .ok { w with
        remoteCalls := w.remoteCalls ++ [.create url title collectionId],
        nextRaindropId := w.nextRaindropId + 1,
        links := addBookmarkLink w.links link,
        nextLinkId := w.nextLinkId + 1 }
  | _, _, _, _ => .error "Missing required data for create operation"

/-- `pushUpdateToRaindrop` (queue.ts:235-263): validate the raindrop id, call
the remote update unconditionally, then refresh the link if one exists. -/
def pushUpdateToRaindrop (w : World) (data : SyncOperationData) :
    Except String World :=
  match data.raindropId with
  | some rid =>
    if rid = 0 then .error "Missing raindrop ID for update operation"
    else
      let w := { w with remoteCalls := w.remoteCalls ++
        [.update rid (truthyOpt data.url) (truthyOpt data.title)] }
      match findBookmarkLink w.links data.firefoxId (some rid) with
      | some link =>
        .ok { w with links := updateBookmarkLink w.links link.id (fun l =>
          { l with url := jsOr data.url link.url,
                   title := jsOr data.title link.title,
                   lastModified := w.now,
                   contentHash := computeBookmarkHash
                     (jsOr data.url link.url) (jsOr data.title link.title),
                   syncStatus := "synced" }) }
      | none => .ok w
  | none => .error "Missing raindrop ID for update operation"

/-- `pushDeleteToRaindrop` (queue.ts:265-279): validate the raindrop id, call
the remote delete unconditionally, then remove the link if one exists. -/
def pushDeleteToRaindrop (w : World) (data : SyncOperationData) :
    Except String World :=
  match data.raindropId with
  | some rid =>
    if rid = 0 then .error "Missing raindrop ID for delete operation"
    else
      let w := { w with remoteCalls := w.remoteCalls ++ [.delete rid] }
      match findBookmarkLink w.links data.firefoxId (some rid) with
      | some link =>
        .ok { w with links := removeBookmarkLink w.links link.id }
      | none => .ok w
  | none => .error "Missing raindrop ID for delete operation"

/-- `pushMoveToRaindrop` (queue.ts:281-303). -/
def pushMoveToRaindrop (w : World) (data : SyncOperationData) :
    Except String World :=
  match data.raindropId, data.newCollectionId with
  | some rid, some ncid =>
    if rid = 0 ∨ ncid = 0 then .error "Missing data for move operation"
    else
      let w := { w with remoteCalls := w.remoteCalls ++
        [.updateCollection rid ncid] }
      match findBookmarkLink w.links data.firefoxId (some rid),
          truthyOpt data.mappingId with
      | some link, some mid =>
        .ok { w with links := updateBookmarkLink w.links link.id (fun l =>
          { l with mappingId := mid, lastModified := w.now,
                   syncStatus := "synced" }) }
      | _, _ => .ok w
  | _, _ => .error "Missing data for move operation"

/-- `pullCreateFromRaindrop` (queue.ts:307-349): validate, return
successfully if a link for the raindrop id already exists, otherwise fetch
the raindrop, create the local bookmark and register the link. -/
def pullCreateFromRaindrop (w : World) (data : SyncOperationData) :
    Except String World :=
  match data.raindropId, data.parentFolderId with
  | some rid, some parentFolderId =>
    if rid = 0 ∨ parentFolderId = "" then
      .error "Missing data for create from Raindrop"
    else if (findBookmarkLink w.links none (some rid)).isSome then
      .ok w
    else
      let raindrop := w.remote rid
      let bookmarkId := "bm" ++ toString w.nextBookmarkId
      let mapping := findMappingByFirefoxId w.mappings parentFolderId
      let link : BookmarkLink :=
        { id := "id" ++ toString w.nextLinkId, firefoxId := bookmarkId,
          raindropId := raindrop._id, url := raindrop.link,
          title := raindrop.title, lastModified := w.now,
          contentHash := computeBookmarkHash raindrop.link raindrop.title,
          syncStatus := "synced",
          mappingId := (mapping.map (fun m => m.id)).getD "" }
      .ok { w with
        bookmarkCalls := w.bookmarkCalls ++
          [.create parentFolderId raindrop.title raindrop.link],
        nextBookmarkId := w.nextBookmarkId + 1,
        links := addBookmarkLink w.links link,
        nextLinkId := w.nextLinkId + 1 }
  | _, _ => .error "Missing data for create from Raindrop"

/-- `pullUpdateFromRaindrop` (queue.ts:351-378). -/
def pullUpdateFromRaindrop (w : World) (data : SyncOperationData) :
    Except String World :=
  match data.firefoxId, data.raindropId with
  | some fid, some rid =>
    if fid = "" ∨ rid = 0 then .error "Missing data for update from Raindrop"
    else
      let raindrop := w.remote rid
      let w := { w with bookmarkCalls := w.bookmarkCalls ++
        [.update fid raindrop.title raindrop.link] }
      match findBookmarkLink w.links (some fid) (some rid) with
      | some link =>
        .ok { w with links := updateBookmarkLink w.links link.id (fun l =>
          { l with url := raindrop.link, title := raindrop.title,
                   lastModified := w.now,
                   contentHash := computeBookmarkHash raindrop.link raindrop.title,
                   syncStatus := "synced" }) }
      | none => .ok w
  | _, _ => .error "Missing data for update from Raindrop"

/-- `pullDeleteFromRaindrop` (queue.ts:380-399): the local remove is wrapped
in try/catch in the source (already-gone is tolerated), so it always
proceeds to the link cleanup. -/
def pullDeleteFromRaindrop (w : World) (data : SyncOperationData) :
    Except String World :=
  match data.firefoxId with
  | some fid =>
    if fid = "" then .error "Missing Firefox ID for delete from Raindrop"
    else
      let w := { w with bookmarkCalls := w.bookmarkCalls ++ [.remove fid] }
      match findBookmarkLink w.links (some fid) data.raindropId with
      | some link =>
        .ok { w with links := removeBookmarkLink w.links link.id }
      | none => .ok w
  | none => .error "Missing Firefox ID for delete from Raindrop"

/-- `processOperation` (queue.ts:143-193): dispatch on `(source, type)`.  A
`(raindrop, move)` operation matches no switch case and succeeds as a
no-op. -/
def processOperation (w : World) (op : SyncOperation) : Except String World :=
  match op.source, op.type with
  | .firefox, .create => pushCreateToRaindrop w op.data
  | .firefox, .update => pushUpdateToRaindrop w op.data
  | .firefox, .delete => pushDeleteToRaindrop w op.data
  | .firefox, .move => pushMoveToRaindrop w op.data
  | .raindrop, .create => pullCreateFromRaindrop w op.data
  | .raindrop, .update => pullUpdateFromRaindrop w op.data
  | .raindrop, .delete => pullDeleteFromRaindrop w op.data
  | .raindrop, .move => .ok w

/-- Rendering of `operation.type + " " + operation.entityType` for the error
log. -/
def typeLabel : OpType → String
  | .create => "create" | .update => "update" | .delete => "delete"
  | .move => "move"

/-- Rendering of the entity type. -/
def entityLabel : EntityType → String
  | .bookmark => "bookmark" | .folder => "folder"

/-- The `operation` field of a logged sync error. -/
def opLabel (op : SyncOperation) : String :=
  typeLabel op.type ++ " " ++ entityLabel op.entityType

/-- `JSON.stringify(operation.data)` modelled as the `Repr` rendering (only
used as an opaque detail string). -/
def dataDetails (d : SyncOperationData) : String := toString (repr d)

/-- One iteration of the `processQueue` loop (queue.ts:105-134) over the
snapshot taken at loop entry: on success remove the operation and record
success stats; on failure route the operation through `moveToFailed` and log
the error. -/
def processQueueStep (total : Nat) (w : World) (entry : Nat × SyncOperation) :
    World :=
  let (i, operation) := entry
  match processOperation w operation with
  | .ok w1 =>
    let w2 := { w1 with queue := removeFromQueue w1.queue operation.id }
    { w2 with stats := some (updateSyncStats w2.stats w2.links
        { pendingOperations := some (total - (i + 1)),
          lastSyncTime := some w2.now,
          lastSyncStatus := some "success" }) }
  | .error msg =>
    let w2 := { w with queue := moveToFailed w.queue operation.id msg }
    { w2 with stats := some (addSyncError w2.stats w2.links
        { timestamp := w.now, operation := opLabel operation,
          message := msg, details := some (dataDetails operation.data) }) }

/-- `PROCESSING_LOCK_TIMEOUT` (queue.ts:33): five minutes. -/
def PROCESSING_LOCK_TIMEOUT : Nat := 5 * 60 * 1000

/-- `acquireLock` (queue.ts:69-81): yield when a lock younger than the
staleness threshold exists, otherwise stamp a fresh lock. -/
def acquireLock (lock : Option Nat) (now : Nat) : Bool × Option Nat :=
  match lock with
  | some ts =>
    if now - ts < PROCESSING_LOCK_TIMEOUT then (false, lock)
    else (true, some now)
  | none => (true, some now)

/-- The body of `processQueue` once the lock is held: iterate the snapshot of
the pending operations. -/
def runPendingOps (w : World) : World :=
  let snapshot := w.queue.pending
  snapshot.enum.foldl (processQueueStep snapshot.length) w

/-- `processQueue` (queue.ts:87-141): try to acquire the advisory lock; when
it is held and fresh, return without touching anything; otherwise run the
pending snapshot and always release the lock at the end (the `finally`). -/
def processQueue (w : World) : World :=
  let acquired := acquireLock w.lock w.now
  if acquired.1 then
    let w1 := runPendingOps { w with lock := acquired.2 }
    { w1 with lock := none }
  else w

/-! ## Incremental pull (src/background/syncManager.ts, pullSyncForMapping)

The two raindrop-id maps are fixed at pass entry (JavaScript `Map` built by
insertion, so the last matching link wins a lookup); the linked-URL set and
the link store evolve through the pass.  Bookmark creation always succeeds in
the model (the catch branches collect external failures only).  The final
`updateFolderMapping` touch of `lastSync` is outside this state. -/

/-- Lookup in a raindrop-id map built by iterating links in order (later
insertions overwrite earlier ones). -/
def mapLookup (links : List BookmarkLink) (raindropId : Nat) :
    Option BookmarkLink :=
  links.reverse.find? (fun l => l.raindropId == raindropId)

/-- The state threaded through one pull pass. -/
structure PullState where
  links : List BookmarkLink
  linkedUrls : List String
  bookmarkCalls : List BookmarkCall
  nextBookmarkId : Nat
  nextLinkId : Nat
  created : Nat
  updated : Nat
  deleted : Nat
  now : Nat
  deriving Repr, DecidableEq

/-- The pull state at pass entry (syncManager.ts:296-338): the linked-URL
set holds the normalized URL of every stored link with a truthy `url`. -/
def pullInitState (allLinks : List BookmarkLink)
    (now nextBookmarkId nextLinkId : Nat) : PullState :=
  { links := allLinks,
    linkedUrls :=
      (allLinks.filter (fun l => l.url ≠ "")).map (fun l => normalizeUrl l.url),
    bookmarkCalls := [], nextBookmarkId := nextBookmarkId,
    nextLinkId := nextLinkId, created := 0, updated := 0, deleted := 0,
    now := now }

/-- The link registered for a raindrop created locally during a pull pass. -/
def newPullLink (mapping : FolderMapping) (st : PullState)
    (raindrop : Raindrop) : BookmarkLink :=
  { id := "id" ++ toString st.nextLinkId,
    firefoxId := "bm" ++ toString st.nextBookmarkId,
    raindropId := raindrop._id, url := raindrop.link, title := raindrop.title,
    lastModified := st.now,
    contentHash := computeRaindropHash raindrop.link raindrop.title,
    syncStatus := "synced", mappingId := mapping.id }

/-- One iteration of the raindrop loop (syncManager.ts:341-407): an item
unlinked in every mapping is created locally unless its normalized URL is in
the linked-URL set; an item linked by this mapping is refreshed when its hash
changed; an item linked by another mapping is skipped. -/
def pullStep (mapping : FolderMapping)
    (globalLinks localLinks : List BookmarkLink) (st : PullState)
    (raindrop : Raindrop) : PullState :=
  match mapLookup globalLinks raindrop._id with
  | none =>
    let normalizedUrl := normalizeUrl raindrop.link
    if st.linkedUrls.contains normalizedUrl then st
    else
      { st with
        bookmarkCalls := st.bookmarkCalls ++
          [.create mapping.firefoxFolderId raindrop.title raindrop.link],
        nextBookmarkId := st.nextBookmarkId + 1,
        links := addBookmarkLink st.links (newPullLink mapping st raindrop),
        nextLinkId := st.nextLinkId + 1,
        linkedUrls := st.linkedUrls ++ [normalizedUrl],
        created := st.created + 1 }
  | some _ =>
    match mapLookup localLinks raindrop._id with
    | some localLink =>
      let currentHash := computeRaindropHash raindrop.link raindrop.title
      if currentHash ≠ localLink.contentHash then
        { st with
          bookmarkCalls := st.bookmarkCalls ++
            [.update localLink.firefoxId raindrop.title raindrop.link],
          links := updateBookmarkLink st.links localLink.id (fun l =>
            { l with url := raindrop.link, title := raindrop.title,
                     lastModified := st.now, contentHash := currentHash,
                     syncStatus := "synced" }),
          updated := st.updated + 1 }
      else st
    | none => st

/-- One iteration of the deletion loop (syncManager.ts:410-423): a link of
this mapping whose raindrop no longer exists remotely is removed together
with its bookmark. -/
def pullDeleteStep (raindrops : List Raindrop) (st : PullState)
    (link : BookmarkLink) : PullState :=
  if raindrops.any (fun r => r._id == link.raindropId) then st
  else
    { st with
      bookmarkCalls := st.bookmarkCalls ++ [.remove link.firefoxId],
      links := removeBookmarkLink st.links link.id,
      deleted := st.deleted + 1 }

/-- `pullSyncForMapping` (syncManager.ts:293-429). -/
def pullSyncForMapping (mapping : FolderMapping) (raindrops : List Raindrop)
    (allLinks : List BookmarkLink) (now nextBookmarkId nextLinkId : Nat) :
    PullState :=
  let localLinks := getBookmarkLinksForMapping allLinks mapping.id
  let st1 := raindrops.foldl (pullStep mapping allLinks localLinks)
    (pullInitState allLinks now nextBookmarkId nextLinkId)
  localLinks.foldl (pullDeleteStep raindrops) st1

/-- Concrete mapping for pull-pass evaluations. -/
def mapC4 : FolderMapping :=
  { id := "m1", firefoxFolderId := "ff1", raindropCollectionId := 10,
    folderName := "F", raindropCollectionName := "C", parentMappingId := none,
    depth := 0, lastSync := 0, syncChildren := false }

/-- Concrete stored links: one link of mapping `m1` with a stale hash. -/
def linksC4 : List BookmarkLink :=
  [{ id := "l1", firefoxId := "f1", raindropId := 1, url := "http://a.com/x",
     title := "A", lastModified := 0, contentHash := "",
     syncStatus := "synced", mappingId := "m1" }]

/-- Raindrop 1, already linked, whose URL changed to `http://b.com/y`. -/
def r1C4 : Raindrop := ⟨1, "http://b.com/y", "B"⟩

/-- Raindrop 2, unlinked, carrying the same URL `http://b.com/y`. -/
def r2C4 : Raindrop := ⟨2, "http://b.com/y", "C"⟩

/-- A minimal world for concrete evaluations: empty stores, a trivial remote
oracle. -/
def emptyWorld : World :=
  { links := [], mappings := [], queue := ⟨[], []⟩, stats := none,
    lock := none, remoteCalls := [], bookmarkCalls := [],
    remote := fun _ => ⟨0, "", ""⟩,
    nextRaindropId := 100, nextBookmarkId := 1, nextLinkId := 1, now := 1000 }

/-- A world whose registry already links Firefox bookmark `f1`. -/
def wLinked : World :=
  { emptyWorld with
    links := [⟨"l1", "f1", 1, "http://a.com", "A", 0, "h", "synced", "m1", none⟩] }

/-- A create operation whose `url` field is missing. -/
def opMissingUrl : SyncOperation :=
  { id := "bad1", type := .create, source := .firefox, entityType := .bookmark,
    data := { firefoxId := some "f1", title := some "T", collectionId := some 3 },
    timestamp := 0, retries := 0, maxRetries := 3, lastError := none }

/-- A world whose queue holds only the malformed create operation. -/
def wBadOp : World := { emptyWorld with queue := ⟨[opMissingUrl], []⟩ }

/-- A world with a stale processing lock (stamped at 0, now far later). -/
def wStaleLock : World := { emptyWorld with lock := some 0, now := 10000000 }

/-! ## Link-operation sequences (for the registry uniqueness invariant) -/

/-- One mutation of the stored link set: `addBookmarkLink` or
`removeBookmarkLink`. -/
inductive LinkOp where
  | add (link : BookmarkLink)
  | remove (linkId : String)
  deriving Repr, DecidableEq

/-- Apply one link operation to the stored link set. -/
def applyLinkOp (links : List BookmarkLink) : LinkOp → List BookmarkLink
  | .add link => addBookmarkLink links link
  | .remove linkId => removeBookmarkLink links linkId

/-- Apply a sequence of link operations in order. -/
def applyLinkOps (links : List BookmarkLink) (ops : List LinkOp) :
    List BookmarkLink :=
  ops.foldl applyLinkOp links

/-- No two stored links share a `firefoxId`, and no two share a
`raindropId`. -/
def LinksInvariant (links : List BookmarkLink) : Prop :=
  (links.map (fun l => l.firefoxId)).Nodup ∧
  (links.map (fun l => l.raindropId)).Nodup

instance : DecidablePred LinksInvariant := fun _ =>
  inferInstanceAs (Decidable (_ ∧ _))

lemma map_filter_nodup (f : BookmarkLink → α) (p : BookmarkLink → Bool)
    {links : List BookmarkLink} (h : (links.map f).Nodup) :
    ((links.filter p).map f).Nodup :=
  h.sublist (List.Sublist.map f (List.filter_sublist links))

lemma addBookmarkLink_invariant {links : List BookmarkLink}
    (link : BookmarkLink) (h : LinksInvariant links) :
    LinksInvariant (addBookmarkLink links link) := by
  unfold addBookmarkLink
  split
  · exact h
  · next hany =>
    simp only [List.any_eq_true, Bool.or_eq_true, beq_iff_eq, not_exists,
      not_and, not_or] at hany
    refine ⟨?_, ?_⟩ <;> rw [List.map_append] <;>
      refine List.Nodup.append ?_ (List.nodup_singleton _) ?_
    · exact h.1
    · intro a ha hb
      simp only [List.map_cons, List.map_nil, List.mem_singleton] at hb
      subst hb
      obtain ⟨l, hl, hfl⟩ := List.mem_map.mp ha
      exact (hany l hl).1 hfl
    · exact h.2
    · intro a ha hb
      simp only [List.map_cons, List.map_nil, List.mem_singleton] at hb
      subst hb
      obtain ⟨l, hl, hfl⟩ := List.mem_map.mp ha
      exact (hany l hl).2 hfl

lemma applyLinkOp_invariant {links : List BookmarkLink} (op : LinkOp)
    (h : LinksInvariant links) : LinksInvariant (applyLinkOp links op) := by
  cases op with
  | add link => exact addBookmarkLink_invariant link h
  | remove linkId =>
    exact ⟨map_filter_nodup _ _ h.1, map_filter_nodup _ _ h.2⟩

/-- Claim C1: starting from any stored link set in which no two links share a
`firefoxId` and no two share a `raindropId`, after any sequence of
`addBookmarkLink` and `removeBookmarkLink` operations the stored link set
still contains no duplicate `firefoxId` and no duplicate `raindropId`. -/
theorem link_ids_globally_unique (links : List BookmarkLink)
    (ops : List LinkOp) (h : LinksInvariant links) :
    LinksInvariant (applyLinkOps links ops) := by
  induction ops generalizing links with
  | nil => exact h
  | cons op ops ih => exact ih _ (applyLinkOp_invariant op h)

/-- Witness for C1 at a concrete state and operation sequence. -/
theorem link_ids_globally_unique_witness :
    LinksInvariant [⟨"l1", "f1", 1, "http://a.com", "A", 0, "h", "synced", "m1", none⟩] ∧
    LinksInvariant (applyLinkOps
      [⟨"l1", "f1", 1, "http://a.com", "A", 0, "h", "synced", "m1", none⟩]
      [.add ⟨"l2", "f2", 2, "http://b.com", "B", 0, "h", "synced", "m1", none⟩,
       .add ⟨"l3", "f2", 3, "http://c.com", "C", 0, "h", "synced", "m1", none⟩,
       .remove "l1"]) :=
  ⟨by decide, link_ids_globally_unique _ _ (by decide)⟩

/-! ## Claim C5: moveToFailed -/

lemma moveToFailed_of_not_found (q : SyncQueue) (opId err : String)
    (h : q.pending.find? (fun o => o.id == opId) = none) :
    moveToFailed q opId err = q := by
  unfold moveToFailed
  rw [h]

/-- Claim C5: when `moveToFailed`
finds the operation in `pending`, it increments its retry counter by one and
records the error; while the incremented count is below `maxRetries` the
operation stays in `pending` (updated in place) and `failed` is unchanged;
once the incremented count reaches `maxRetries` (the guard is
`retries >= maxRetries`, which a one-step increment from below first
satisfies exactly at equality) the operation leaves
`pending`, is appended at the end of `failed` (which is trimmed to its last
100 entries, evicting the oldest), and a repeated `moveToFailed` for the same
id is a no-op, so the transition happens exactly once. -/
theorem moveToFailed_spec (queue : SyncQueue) (opId err : String)
    (op : SyncOperation)
    (h : queue.pending.find? (fun o => o.id == opId) = some op) :
    (op.retries + 1 < op.maxRetries →
      (moveToFailed queue opId err).pending =
        setFirst (fun o => o.id == opId)
          (fun o => { o with retries := o.retries + 1, lastError := some err })
          queue.pending ∧
      (moveToFailed queue opId err).failed = queue.failed) ∧
    (op.maxRetries ≤ op.retries + 1 →
      (∀ o ∈ (moveToFailed queue opId err).pending, o.id ≠ opId) ∧
      (moveToFailed queue opId err).failed.getLast? =
        some { op with retries := op.retries + 1, lastError := some err } ∧
      (moveToFailed queue opId err).failed.IsSuffix
        (queue.failed ++ [{ op with retries := op.retries + 1,
                                    lastError := some err }]) ∧
      (moveToFailed queue opId err).failed.length =
        min (queue.failed.length + 1) 100 ∧
      moveToFailed (moveToFailed queue opId err) opId err =
        moveToFailed queue opId err) := by
  constructor
  · intro hlt
    unfold moveToFailed
    rw [h]
    simp only [ge_iff_le]
    rw [if_neg (by simpa using Nat.not_le.mpr hlt)]
    exact ⟨rfl, rfl⟩
  · intro hge
    have hq : moveToFailed queue opId err =
        { pending := queue.pending.filter (fun o => !(o.id == opId)),
          failed :=
            let failed := queue.failed ++
              [{ op with retries := op.retries + 1, lastError := some err }]
            if failed.length > MAX_FAILED_QUEUE then
              sliceLast failed MAX_FAILED_QUEUE
            else failed } := by
      unfold moveToFailed
      rw [h]
      simp only [ge_iff_le]
      rw [if_pos (by simpa using hge)]
    set op' : SyncOperation :=
      { op with retries := op.retries + 1, lastError := some err } with hop'
    have hpend : ∀ o ∈ (moveToFailed queue opId err).pending, o.id ≠ opId := by
      rw [hq]
      intro o ho
      have := (List.mem_filter.mp ho).2
      simpa using this
    refine ⟨hpend, ?_, ?_, ?_, ?_⟩
    · rw [hq]
      simp only [MAX_FAILED_QUEUE]
      split
      · next hlen =>
        unfold sliceLast
        rw [List.length_append, List.length_singleton] at hlen ⊢
        rw [List.drop_append_of_le_length (by omega)]
        exact List.getLast?_concat _
      · exact List.getLast?_concat _
    · rw [hq]
      simp only [MAX_FAILED_QUEUE]
      split
      · exact List.drop_suffix _ _
      · exact List.suffix_refl _
    · rw [hq]
      simp only [MAX_FAILED_QUEUE]
      split
      · next hlen =>
        unfold sliceLast
        rw [List.length_append, List.length_singleton] at hlen
        rw [List.length_drop, List.length_append, List.length_singleton]
        omega
      · next hlen =>
        rw [List.length_append, List.length_singleton] at hlen ⊢
        omega
    · have hfind : (moveToFailed queue opId err).pending.find?
          (fun o => o.id == opId) = none := by
        apply List.find?_eq_none.mpr
        intro o ho
        simpa using hpend o ho
      exact moveToFailed_of_not_found _ _ _ hfind

/-- Witness for C5 at a concrete queue: one failing operation with
`maxRetries = 1` and one with room to retry. -/
theorem moveToFailed_spec_witness :
    ([⟨"op1", .create, .firefox, .bookmark, {}, 0, 0, 1, none⟩] :
        List SyncOperation).find? (fun o => o.id == "op1") =
      some ⟨"op1", .create, .firefox, .bookmark, {}, 0, 0, 1, none⟩ ∧
    (1 ≤ 0 + 1 →
      (∀ o ∈ (moveToFailed ⟨[⟨"op1", .create, .firefox, .bookmark, {}, 0, 0, 1, none⟩], []⟩
          "op1" "boom").pending, o.id ≠ "op1")) := by
  refine ⟨by decide, ?_⟩
  intro hge
  exact ((moveToFailed_spec
    ⟨[⟨"op1", .create, .firefox, .bookmark, {}, 0, 0, 1, none⟩], []⟩
    "op1" "boom" ⟨"op1", .create, .firefox, .bookmark, {}, 0, 0, 1, none⟩
    (by decide)).2 hge).1

/-! ## Claim C6: addToQueue deduplication -/

/-- Claim C6: enqueuing a second operation whose
`(type, source, firefoxId, raindropId)` tuple is identical to an operation
already queued leaves the queue unchanged, and when the tuple was not present
before, the first enqueue leaves exactly one pending operation carrying it. -/
theorem addToQueue_dedup (queue : SyncQueue) (a b : SyncOperation)
    (h : opTuple a = opTuple b) :
    addToQueue (addToQueue queue a) b = addToQueue queue a ∧
    (queue.pending.countP (fun op => opTuple op == opTuple a) = 0 →
      (addToQueue queue a).pending.countP
        (fun op => opTuple op == opTuple a) = 1) := by
  constructor
  · unfold addToQueue
    split
    · next hany =>
      rw [if_pos]
      simpa [← h] using hany
    · next hany =>
      rw [if_pos]
      simp only [List.any_append, List.any_cons, List.any_nil,
        Bool.or_eq_true, beq_iff_eq]
      right
      simp [h]
  · intro hzero
    unfold addToQueue
    have hany : queue.pending.any
        (fun op => opTuple op == opTuple a) = false := by
      have hall := List.countP_eq_zero.mp hzero
      rw [List.any_eq_false]
      intro x hx
      simpa using hall x hx
    rw [if_neg (by simp [hany])]
    rw [List.countP_append, hzero]
    simp

/-- Witness for C6 with two concrete operations sharing the tuple. -/
theorem addToQueue_dedup_witness :
    opTuple ⟨"op1", .create, .firefox, .bookmark,
        { firefoxId := some "f1" }, 0, 0, 3, none⟩ =
      opTuple ⟨"op2", .create, .firefox, .bookmark,
        { firefoxId := some "f1" }, 5, 0, 3, none⟩ ∧
    addToQueue (addToQueue ⟨[], []⟩
        ⟨"op1", .create, .firefox, .bookmark,
          { firefoxId := some "f1" }, 0, 0, 3, none⟩)
        ⟨"op2", .create, .firefox, .bookmark,
          { firefoxId := some "f1" }, 5, 0, 3, none⟩ =
      addToQueue ⟨[], []⟩
        ⟨"op1", .create, .firefox, .bookmark,
          { firefoxId := some "f1" }, 0, 0, 3, none⟩ :=
  ⟨by decide, (addToQueue_dedup ⟨[], []⟩ _ _ (by decide)).1⟩

/-! ## Claim C9: getSyncStats overrides totalSynced -/

/-- Claim C9: `getSyncStats` always reports `totalSynced` as the current
number of stored bookmark links, regardless of the persisted value. -/
theorem getSyncStats_totalSynced (stored : Option SyncStats)
    (links : List BookmarkLink) (s : SyncStats) (v : Nat) :
    (getSyncStats stored links).totalSynced = links.length ∧
    getSyncStats (some { s with totalSynced := v }) links =
      getSyncStats (some s) links := by
  constructor
  · rfl
  · unfold getSyncStats
    rfl

/-! ## Claim C10: duplicate link add is a silent no-op -/

/-- Claim C10: `addBookmarkLink` with a link whose `firefoxId` or
`raindropId` already occurs resolves successfully leaving the stored links
unchanged, while `addFolderMapping` raises a duplicate-mapping error on a
conflicting mapping. -/
theorem addBookmarkLink_duplicate_noop (links : List BookmarkLink)
    (link : BookmarkLink)
    (h : ∃ l ∈ links, l.firefoxId = link.firefoxId ∨
        l.raindropId = link.raindropId)
    (mappings : List FolderMapping) (m : FolderMapping)
    (hm : ∃ x ∈ mappings, x.firefoxFolderId = m.firefoxFolderId ∨
        x.raindropCollectionId = m.raindropCollectionId) :
    addBookmarkLink links link = links ∧
    addFolderMapping mappings m =
      .error "Mapping already exists for this folder or collection" := by
  constructor
  · unfold addBookmarkLink
    rw [if_pos]
    simpa using h
  · unfold addFolderMapping
    rw [if_pos]
    simpa using hm

/-- Witness for C10 at concrete conflicting inputs. -/
theorem addBookmarkLink_duplicate_noop_witness :
    (∃ l ∈ [(⟨"l1", "f1", 1, "u", "t", 0, "h", "synced", "m1", none⟩ :
        BookmarkLink)], l.firefoxId = "f1" ∨ l.raindropId = 9) ∧
    (∃ x ∈ [(⟨"m1", "ff1", 7, "n", "rn", none, 0, 0, true⟩ :
        FolderMapping)], x.firefoxFolderId = "ff1" ∨
        x.raindropCollectionId = 8) ∧
    addBookmarkLink [⟨"l1", "f1", 1, "u", "t", 0, "h", "synced", "m1", none⟩]
        ⟨"l2", "f1", 9, "u2", "t2", 0, "h", "synced", "m1", none⟩ =
      [⟨"l1", "f1", 1, "u", "t", 0, "h", "synced", "m1", none⟩] := by
  refine ⟨by decide, by decide, ?_⟩
  exact (addBookmarkLink_duplicate_noop _
    ⟨"l2", "f1", 9, "u2", "t2", 0, "h", "synced", "m1", none⟩ (by decide)
    [⟨"m1", "ff1", 7, "n", "rn", none, 0, 0, true⟩]
    ⟨"m2", "ff1", 8, "n", "rn", none, 0, 0, true⟩ (by decide)).1

/-! ## Claim C7: processing-lock staleness -/

/-- Claim C7: when `processQueue` finds a stored lock older than the
staleness threshold it reclaims the lock (stamping the current time) and
runs the pending snapshot, releasing the lock at the end; when the lock is
younger than the threshold the invocation returns with the world
untouched. -/
theorem processQueue_lock_staleness (w : World) (ts : Nat)
    (h : w.lock = some ts) :
    (PROCESSING_LOCK_TIMEOUT < w.now - ts →
      processQueue w =
        { runPendingOps { w with lock := some w.now } with lock := none }) ∧
    (w.now - ts < PROCESSING_LOCK_TIMEOUT → processQueue w = w) := by
  constructor
  · intro hstale
    have hplt : ¬ (w.now - ts < PROCESSING_LOCK_TIMEOUT) := by omega
    simp only [processQueue, acquireLock, h, if_neg hplt, if_true]
  · intro hyoung
    simp only [processQueue, acquireLock, h, if_pos hyoung]
    simp

/-- Witness for C7 at the concrete stale-lock world. -/
theorem processQueue_lock_staleness_witness :
    wStaleLock.lock = some 0 ∧
    PROCESSING_LOCK_TIMEOUT < wStaleLock.now - 0 ∧
    processQueue wStaleLock =
      { runPendingOps { wStaleLock with lock := some wStaleLock.now } with
        lock := none } :=
  ⟨rfl, by decide,
    (processQueue_lock_staleness wStaleLock 0 rfl).1 (by decide)⟩

/-! ## Claim C2: replay safety of the queue handlers -/

/-- Counterexample to claim C2 as stated: the `(firefox, update)` handler
does not first check the link registry — with no link stored for the ids
(the "already absent" replay state) it still performs the remote update
mutation. -/
theorem queue_update_handler_mutates_when_link_absent :
    findBookmarkLink emptyWorld.links (some "f9") (some 5) = none ∧
    pushUpdateToRaindrop emptyWorld
        { raindropId := some 5, url := some "http://a.com", title := some "T" } =
      .ok { emptyWorld with
        remoteCalls := [.update 5 (some "http://a.com") (some "T")] } :=
  ⟨rfl, rfl⟩

/-- Claim C2 amended: only the create handlers consult the link registry
first and treat "already linked" as success without any mutation; the update
and delete handlers perform the remote mutation unconditionally (only the
subsequent registry bookkeeping is guarded on link existence), so replaying
them repeats the remote call. -/
theorem queue_replay_semantics (w : World) :
    (∀ data url title cid fid,
      data.url = some url → url ≠ "" →
      data.title = some title → title ≠ "" →
      data.collectionId = some cid → cid ≠ 0 →
      data.firefoxId = some fid → fid ≠ "" →
      (findBookmarkLink w.links (some fid) none).isSome →
      pushCreateToRaindrop w data = .ok w) ∧
    (∀ data rid pfid,
      data.raindropId = some rid → rid ≠ 0 →
      data.parentFolderId = some pfid → pfid ≠ "" →
      (findBookmarkLink w.links none (some rid)).isSome →
      pullCreateFromRaindrop w data = .ok w) ∧
    (∀ data rid, data.raindropId = some rid → rid ≠ 0 →
      Except.map (fun w1 => w1.remoteCalls) (pushUpdateToRaindrop w data) =
        .ok (w.remoteCalls ++
          [RemoteCall.update rid (truthyOpt data.url) (truthyOpt data.title)])) ∧
    (∀ data rid, data.raindropId = some rid → rid ≠ 0 →
      Except.map (fun w1 => w1.remoteCalls) (pushDeleteToRaindrop w data) =
        .ok (w.remoteCalls ++ [RemoteCall.delete rid])) := by
  refine ⟨?_, ?_, ?_, ?_⟩
  · intro data url title cid fid h1 hu h2 ht h3 hc h4 hf hlink
    simp only [pushCreateToRaindrop, h1, h2, h3, h4]
    rw [if_neg (by simp [hu, ht, hc, hf])]
    rw [if_pos hlink]
  · intro data rid pfid h1 hr h2 hp hlink
    simp only [pullCreateFromRaindrop, h1, h2]
    rw [if_neg (by simp [hr, hp])]
    rw [if_pos hlink]
  · intro data rid h1 hr
    simp only [pushUpdateToRaindrop, h1]
    rw [if_neg hr]
    cases hfind : findBookmarkLink w.links data.firefoxId (some rid) <;>
      simp [hfind] <;> rfl
  · intro data rid h1 hr
    simp only [pushDeleteToRaindrop, h1]
    rw [if_neg hr]
    cases hfind : findBookmarkLink w.links data.firefoxId (some rid) <;>
      simp [hfind] <;> rfl

/-- Witness for C2's amended claim: a create replayed against an existing
link for `f1` succeeds without mutating anything. -/
theorem queue_replay_semantics_witness :
    (findBookmarkLink wLinked.links (some "f1") none).isSome = true ∧
    pushCreateToRaindrop wLinked
        { url := some "http://a.com", title := some "A",
          collectionId := some 2, firefoxId := some "f1" } = .ok wLinked :=
  ⟨by decide,
    (queue_replay_semantics wLinked).1
      { url := some "http://a.com", title := some "A",
        collectionId := some 2, firefoxId := some "f1" }
      "http://a.com" "A" 2 "f1"
      rfl (by decide) rfl (by decide) rfl (by decide) rfl (by decide)
      (by decide)⟩

/-! ## Claim C3: operations with missing fields -/

/-- Counterexample to claim C3 as stated: a queued create operation with a
missing `url` fails during processing and IS routed through the retry
machinery — after one `processQueue` pass its retry counter is 1, and after
three passes it sits in the failed partition. -/
theorem validation_failures_are_retried :
    (processQueue wBadOp).queue.pending.map
        (fun op => (op.id, op.retries, op.lastError)) =
      [("bad1", 1, some "Missing required data for create operation")] ∧
    (processQueue (processQueue (processQueue wBadOp))).queue.failed.map
        (fun op => (op.id, op.retries)) = [("bad1", 3)] ∧
    (processQueue (processQueue (processQueue wBadOp))).queue.pending = [] :=
  ⟨rfl, rfl, rfl⟩

/-- Claim C3 amended: an operation with missing required fields is rejected
synchronously by its handler, but since it was already queued the queue loop
treats this like any other failure: the pass routes it through
`moveToFailed`, incrementing its retry counter and recording the error, and
after `maxRetries` such passes it lands in the failed partition. -/
theorem missing_fields_take_retry_path (w : World) (op : SyncOperation)
    (total i : Nat) (htype : op.type = .create)
    (hsource : op.source = .firefox) (hurl : op.data.url = none) :
    processOperation w op =
      .error "Missing required data for create operation" ∧
    processQueueStep total w (i, op) =
      (let msg := "Missing required data for create operation"
       let w2 := { w with queue := moveToFailed w.queue op.id msg }
       { w2 with stats := some (addSyncError w2.stats w2.links
           { timestamp := w.now, operation := opLabel op,
             message := msg, details := some (dataDetails op.data) }) }) := by
  have hproc : processOperation w op =
      .error "Missing required data for create operation" := by
    simp only [processOperation, htype, hsource]
    simp only [pushCreateToRaindrop, hurl]
  refine ⟨hproc, ?_⟩
  simp only [processQueueStep, hproc]

/-- Witness for C3's amended claim at the concrete malformed operation. -/
theorem missing_fields_take_retry_path_witness :
    opMissingUrl.type = .create ∧ opMissingUrl.source = .firefox ∧
    opMissingUrl.data.url = none ∧
    processOperation emptyWorld opMissingUrl =
      .error "Missing required data for create operation" :=
  ⟨rfl, rfl, rfl,
    (missing_fields_take_retry_path emptyWorld opMissingUrl 1 0
      rfl rfl rfl).1⟩

/-! ## Claim C4: pull-pass duplicate-URL handling -/

/-- Counterexample to claim C4 as stated: the duplicate-URL check consults a
snapshot set, not the current links.  After raindrop 1 (linked by this
mapping) is updated to URL `http://b.com/y`, a link with that normalized URL
exists; yet the pass still creates a bookmark and a link for the unlinked
raindrop 2 with the same URL, because the snapshot only knows the pass-start
URL `http://a.com/x`. -/
theorem pull_url_check_uses_snapshot :
    (let localLinks := getBookmarkLinksForMapping linksC4 "m1"
     let st1 := pullStep mapC4 linksC4 localLinks
       (pullInitState linksC4 0 1 1) r1C4
     st1.links.any
        (fun l => normalizeUrl l.url == normalizeUrl r2C4.link) = true ∧
     mapLookup linksC4 r2C4._id = none ∧
     (pullStep mapC4 linksC4 localLinks st1 r2C4).created = st1.created + 1 ∧
     (pullStep mapC4 linksC4 localLinks st1 r2C4).bookmarkCalls.length =
       st1.bookmarkCalls.length + 1) := by
  refine ⟨by decide, by decide, by decide, by decide⟩

/-- Claim C4 amended: the pass skips an item unlinked by remote id exactly
when its normalized URL is in the pass's linked-URL set — initialized with
the normalized URLs the stored links have at pass start (links with empty
URLs excluded) and extended with the URL of every link created during the
pass, but not updated when the update branch rewrites a link's URL;
otherwise it creates exactly one local bookmark and registers one link. -/
theorem pull_unlinked_item_behavior (mapping : FolderMapping)
    (globalLinks localLinks allLinks : List BookmarkLink) (st : PullState)
    (r : Raindrop) (now nb nl : Nat)
    (h : mapLookup globalLinks r._id = none) :
    (pullInitState allLinks now nb nl).linkedUrls =
      (allLinks.filter (fun l => l.url ≠ "")).map (fun l => normalizeUrl l.url) ∧
    (st.linkedUrls.contains (normalizeUrl r.link) = true →
      pullStep mapping globalLinks localLinks st r = st) ∧
    (st.linkedUrls.contains (normalizeUrl r.link) = false →
      pullStep mapping globalLinks localLinks st r =
        { st with
          bookmarkCalls := st.bookmarkCalls ++
            [.create mapping.firefoxFolderId r.title r.link],
          nextBookmarkId := st.nextBookmarkId + 1,
          links := addBookmarkLink st.links (newPullLink mapping st r),
          nextLinkId := st.nextLinkId + 1,
          linkedUrls := st.linkedUrls ++ [normalizeUrl r.link],
          created := st.created + 1 }) := by
  refine ⟨rfl, ?_, ?_⟩
  · intro hmem
    simp only [pullStep, h, hmem, if_true]
  · intro hmem
    simp only [pullStep, h, hmem]
    simp

/-- Witness for C4's amended claim at an empty store and a fresh item. -/
theorem pull_unlinked_item_behavior_witness :
    mapLookup ([] : List BookmarkLink) 5 = none ∧
    ((pullInitState [] 0 1 1).linkedUrls =
      (([] : List BookmarkLink).filter (fun l => l.url ≠ "")).map
        (fun l => normalizeUrl l.url)) :=
  ⟨rfl,
    (pull_unlinked_item_behavior mapC4 [] [] [] (pullInitState [] 0 1 1)
      ⟨5, "http://z.com", "Z"⟩ 0 1 1 rfl).1⟩

/-! ## Claim C8: normalizeUrl — supporting lemmas -/

lemma char_toNat_inj {a b : Char} (h : a.toNat = b.toNat) : a = b := by
  have hv : a.val = b.val := by
    rcases a with ⟨⟨⟨na, ha⟩⟩, va⟩
    rcases b with ⟨⟨⟨nb, hb⟩⟩, vb⟩
    simp [Char.toNat, UInt32.toNat] at h
    subst h
    rfl
  exact Char.ext hv

lemma toNat_ofNat_valid {n : Nat} (h : n < 55296) : (Char.ofNat n).toNat = n := by
  unfold Char.ofNat
  rw [dif_pos (Or.inl h)]
  rfl

lemma lowerChar_toNat (c : Char) :
    (lowerChar c).toNat =
      if 65 ≤ c.toNat ∧ c.toNat ≤ 90 then c.toNat + 32 else c.toNat := by
  unfold lowerChar
  split
  · next h => exact toNat_ofNat_valid (by omega)
  · rfl

lemma lowerChar_idem (c : Char) : lowerChar (lowerChar c) = lowerChar c := by
  unfold lowerChar
  split
  · next h =>
    have ht : (Char.ofNat (c.toNat + 32)).toNat = c.toNat + 32 :=
      toNat_ofNat_valid (by omega)
    rw [if_neg (by rw [ht]; omega)]
  · rfl

lemma bool_eq_of_iff {a b : Bool} (h : a = true ↔ b = true) : a = b := by
  cases a <;> cases b <;> simp_all

lemma isSchemeChar_lower (c : Char) :
    isSchemeChar (lowerChar c) = isSchemeChar c := by
  unfold isSchemeChar
  apply bool_eq_of_iff
  rw [lowerChar_toNat]
  by_cases h : 65 ≤ c.toNat ∧ c.toNat ≤ 90 <;> simp [h] <;> omega

lemma isHostChar_lower (c : Char) : isHostChar (lowerChar c) = isHostChar c := by
  unfold isHostChar
  apply bool_eq_of_iff
  rw [lowerChar_toNat]
  by_cases h : 65 ≤ c.toNat ∧ c.toNat ≤ 90 <;> simp [h] <;> omega

lemma lowerChar_eq_low {c d : Char} (hd : d.toNat < 65) :
    lowerChar c = d ↔ c = d := by
  constructor
  · intro h
    unfold lowerChar at h
    split at h
    · next hr =>
      exfalso
      have ht : (Char.ofNat (c.toNat + 32)).toNat = c.toNat + 32 :=
        toNat_ofNat_valid (by omega)
      rw [h] at ht
      omega
    · exact h
  · intro h
    subst h
    unfold lowerChar
    rw [if_neg (by omega)]

lemma slashLower (c : Char) : (lowerChar c == '/') = (c == '/') := by
  apply bool_eq_of_iff
  simp only [beq_iff_eq]
  exact lowerChar_eq_low (by decide)

lemma all_takeWhile (p : α → Bool) (l : List α) :
    (l.takeWhile p).all p = true := by
  induction l with
  | nil => rfl
  | cons c l ih =>
    simp only [List.takeWhile]
    cases hc : p c
    · rfl
    · simpa [hc] using ih

lemma takeWhile_of_all {p : α → Bool} {l : List α} (h : l.all p = true) :
    l.takeWhile p = l := by
  induction l with
  | nil => rfl
  | cons c l ih =>
    simp only [List.all_cons, Bool.and_eq_true] at h
    simp [List.takeWhile_cons, h.1, ih h.2]

lemma dropWhile_of_all {p : α → Bool} {l : List α} (h : l.all p = true) :
    l.dropWhile p = [] := by
  induction l with
  | nil => rfl
  | cons c l ih =>
    simp only [List.all_cons, Bool.and_eq_true] at h
    simp [List.dropWhile_cons, h.1, ih h.2]

lemma takeWhile_append_cons {p : α → Bool} {l₁ : List α}
    (h : l₁.all p = true) {c : α} (hc : p c = false) (l₂ : List α) :
    (l₁ ++ c :: l₂).takeWhile p = l₁ := by
  induction l₁ with
  | nil => simp [List.takeWhile_cons, hc]
  | cons a l ih =>
    simp only [List.all_cons, Bool.and_eq_true] at h
    simp [List.takeWhile_cons, h.1, ih h.2]

lemma dropWhile_append_cons {p : α → Bool} {l₁ : List α}
    (h : l₁.all p = true) {c : α} (hc : p c = false) (l₂ : List α) :
    (l₁ ++ c :: l₂).dropWhile p = c :: l₂ := by
  induction l₁ with
  | nil => simp [List.dropWhile_cons, hc]
  | cons a l ih =>
    simp only [List.all_cons, Bool.and_eq_true] at h
    simp [List.dropWhile_cons, h.1, ih h.2]

lemma takeWhile_lowerList {p : Char → Bool}
    (hp : ∀ c, p (lowerChar c) = p c) (l : List Char) :
    (lowerList l).takeWhile p = lowerList (l.takeWhile p) := by
  induction l with
  | nil => rfl
  | cons c l ih =>
    simp only [lowerList, List.map_cons, List.takeWhile_cons, hp c]
    cases h : p c
    · simp
    · simpa [lowerList] using ih

lemma dropWhile_lowerList {p : Char → Bool}
    (hp : ∀ c, p (lowerChar c) = p c) (l : List Char) :
    (lowerList l).dropWhile p = lowerList (l.dropWhile p) := by
  induction l with
  | nil => rfl
  | cons c l ih =>
    simp only [lowerList, List.map_cons, List.dropWhile_cons, hp c]
    cases h : p c
    · simp [lowerList]
    · simpa [lowerList] using ih

lemma lowerList_idem (l : List Char) : lowerList (lowerList l) = lowerList l := by
  simp only [lowerList, List.map_map]
  congr 1
  funext c
  exact lowerChar_idem c

lemma parseUrl_of_shape (l : List Char) (rest : List Char)
    (h : l.dropWhile isSchemeChar = ':' :: '/' :: '/' :: rest) :
    parseUrl l = parseTail (l.takeWhile isSchemeChar) rest := by
  unfold parseUrl
  split
  · next rest' heq =>
    rw [h] at heq
    injection heq with h1 h2
    injection h2 with h3 h4
    injection h4 with h5 h6
    rw [h6]
  · next hno => exact absurd h (hno rest)

lemma parseUrl_none_of_shape (l : List Char)
    (h : ∀ rest, l.dropWhile isSchemeChar ≠ ':' :: '/' :: '/' :: rest) :
    parseUrl l = none := by
  unfold parseUrl
  split
  · next rest heq => exact absurd heq (h rest)
  · rfl

lemma parseTail_eq_none (scheme rest : List Char) :
    (parseTail scheme rest = none ↔
      scheme.isEmpty = true ∨ (rest.takeWhile isHostChar).isEmpty = true) := by
  unfold parseTail
  by_cases h1 : scheme.isEmpty
  · simp [h1]
  · simp only [Bool.not_eq_true] at h1
    rw [if_neg (by simp [h1])]
    by_cases h2 : (rest.takeWhile isHostChar).isEmpty
    · simp [h2]
    · simp only [Bool.not_eq_true] at h2
      rw [if_neg (by simp [h2])]
      simp only [h1, h2, Bool.false_eq_true, or_self, iff_false]
      split <;> simp

lemma lowerList_cons3_inv {r rest : List Char}
    (h : lowerList r = ':' :: '/' :: '/' :: rest) :
    ∃ rest₀, r = ':' :: '/' :: '/' :: rest₀ ∧ rest = lowerList rest₀ := by
  cases r with
  | nil => simp [lowerList] at h
  | cons a r1 =>
    simp only [lowerList, List.map_cons, List.cons.injEq] at h
    obtain ⟨ha, h⟩ := h
    rw [lowerChar_eq_low (by decide)] at ha
    cases r1 with
    | nil => simp at h
    | cons b r2 =>
      simp only [List.map_cons, List.cons.injEq] at h
      obtain ⟨hb, h⟩ := h
      rw [lowerChar_eq_low (by decide)] at hb
      cases r2 with
      | nil => simp at h
      | cons c r3 =>
        simp only [List.map_cons, List.cons.injEq] at h
        obtain ⟨hc, h⟩ := h
        rw [lowerChar_eq_low (by decide)] at hc
        subst ha hb hc
        exact ⟨r3, rfl, h.symm⟩

lemma parse_lower_none {l : List Char} (h : parseUrl l = none) :
    parseUrl (lowerList l) = none := by
  by_cases hsh : ∃ rest, l.dropWhile isSchemeChar = ':' :: '/' :: '/' :: rest
  · obtain ⟨rest, hr⟩ := hsh
    rw [parseUrl_of_shape l rest hr] at h
    have h2 : (lowerList l).dropWhile isSchemeChar =
        ':' :: '/' :: '/' :: lowerList rest := by
      rw [dropWhile_lowerList isSchemeChar_lower, hr]
      simp only [lowerList, List.map_cons]
      rw [show lowerChar ':' = ':' from (lowerChar_eq_low (by decide)).mpr rfl]
      rw [show lowerChar '/' = '/' from (lowerChar_eq_low (by decide)).mpr rfl]
    rw [parseUrl_of_shape _ _ h2, takeWhile_lowerList isSchemeChar_lower]
    rw [parseTail_eq_none] at h ⊢
    rcases h with h | h
    · left
      rw [List.isEmpty_iff] at h ⊢
      simp [lowerList, h]
    · right
      rw [takeWhile_lowerList isHostChar_lower]
      rw [List.isEmpty_iff] at h ⊢
      simp [lowerList, h]
  · push_neg at hsh
    apply parseUrl_none_of_shape
    intro rest hcontra
    rw [dropWhile_lowerList isSchemeChar_lower] at hcontra
    obtain ⟨rest₀, hr₀, -⟩ := lowerList_cons3_inv hcontra
    exact hsh rest₀ hr₀

lemma dropWhile_dropWhile (p : α → Bool) (l : List α) :
    (l.dropWhile p).dropWhile p = l.dropWhile p := by
  induction l with
  | nil => rfl
  | cons c l ih =>
    simp only [List.dropWhile_cons]
    cases hc : p c
    · simp [List.dropWhile_cons, hc]
    · simpa [hc] using ih

lemma strip_idem (l : List Char) :
    stripTrailingSlashes (stripTrailingSlashes l) = stripTrailingSlashes l := by
  unfold stripTrailingSlashes
  rw [List.reverse_reverse, dropWhile_dropWhile]

lemma strip_lower_comm (l : List Char) :
    lowerList (stripTrailingSlashes l) = stripTrailingSlashes (lowerList l) := by
  unfold stripTrailingSlashes
  have h1 : ∀ m : List Char, lowerList m.reverse = (lowerList m).reverse := by
    intro m
    simp [lowerList, List.map_reverse]
  rw [h1 (List.dropWhile (fun c => c == '/') l.reverse), ← h1 l,
    dropWhile_lowerList slashLower]

lemma all_slash_replicate {t : List Char}
    (h : t.all (fun c => c == '/') = true) :
    t = List.replicate t.length '/' := by
  induction t with
  | nil => rfl
  | cons c t ih =>
    simp only [List.all_cons, Bool.and_eq_true, beq_iff_eq] at h
    rw [List.length_cons, List.replicate_succ, h.1]
    exact congrArg _ (ih h.2)

lemma strip_decomp (l : List Char) :
    ∃ k, l = stripTrailingSlashes l ++ List.replicate k '/' := by
  refine ⟨(l.reverse.takeWhile (fun c => c == '/')).length, ?_⟩
  unfold stripTrailingSlashes
  conv_lhs => rw [← List.reverse_reverse l,
    ← List.takeWhile_append_dropWhile (fun c => c == '/') l.reverse]
  rw [List.reverse_append]
  congr 1
  have hT := all_slash_replicate
    (all_takeWhile (fun c => c == '/') l.reverse)
  conv_lhs => rw [hT]
  exact List.reverse_replicate _ _

lemma takeWhile_append_ne_nil {p : α → Bool} {l : List α}
    (h : l.takeWhile p ≠ []) (l₂ : List α) :
    (l ++ l₂).takeWhile p ≠ [] := by
  cases l with
  | nil => simp at h
  | cons c l =>
    simp only [List.takeWhile_cons] at h ⊢
    cases hc : p c
    · rw [hc] at h
      simp at h
    · rw [List.cons_append, List.takeWhile_cons, hc]
      simp

lemma parse_append_slashes {s : List Char} (h : parseUrl s ≠ none) (k : Nat) :
    parseUrl (s ++ List.replicate k '/') ≠ none := by
  by_cases hsh : ∃ rest, s.dropWhile isSchemeChar = ':' :: '/' :: '/' :: rest
  · obtain ⟨rest, hr⟩ := hsh
    rw [parseUrl_of_shape s rest hr] at h
    have hdecomp : s = s.takeWhile isSchemeChar ++
        ':' :: '/' :: '/' :: rest := by
      conv_lhs => rw [← List.takeWhile_append_dropWhile isSchemeChar s, hr]
    have hall : (s.takeWhile isSchemeChar).all isSchemeChar = true :=
      all_takeWhile _ _
    have h2 : (s ++ List.replicate k '/').dropWhile isSchemeChar =
        ':' :: '/' :: '/' :: (rest ++ List.replicate k '/') := by
      conv_lhs => rw [hdecomp]
      rw [List.append_assoc, List.cons_append, List.cons_append,
        List.cons_append]
      exact dropWhile_append_cons hall (by decide) _
    have h3 : (s ++ List.replicate k '/').takeWhile isSchemeChar =
        s.takeWhile isSchemeChar := by
      conv_lhs => rw [hdecomp]
      rw [List.append_assoc, List.cons_append, List.cons_append,
        List.cons_append]
      exact takeWhile_append_cons hall (by decide) _
    rw [parseUrl_of_shape _ _ h2, h3]
    rw [Ne, parseTail_eq_none, not_or] at h ⊢
    obtain ⟨ha, hb⟩ := h
    refine ⟨ha, ?_⟩
    simp only [Bool.not_eq_true, List.isEmpty_eq_false] at hb ⊢
    exact takeWhile_append_ne_nil hb _
  · exfalso
    apply h
    apply parseUrl_none_of_shape
    intro rest hcontra
    exact hsh ⟨rest, hcontra⟩

lemma parse_strip_none {l : List Char} (h : parseUrl l = none) :
    parseUrl (stripTrailingSlashes l) = none := by
  by_contra hne
  obtain ⟨k, hk⟩ := strip_decomp l
  have := parse_append_slashes hne k
  rw [← hk] at this
  exact this h

lemma splitOnAmp_cons_amp (r : List Char) :
    splitOnAmp ('&' :: r) = [] :: splitOnAmp r := rfl

lemma splitOnAmp_cons_noamp {c : Char} (hc : (c == '&') = false)
    (r : List Char) :
    splitOnAmp (c :: r) =
      match splitOnAmp r with
      | [] => [[c]]
      | s :: ss => (c :: s) :: ss := by
  conv_lhs => unfold splitOnAmp
  rw [hc]
  simp

lemma splitOnAmp_ne_nil (l : List Char) : splitOnAmp l ≠ [] := by
  cases l with
  | nil => exact by decide
  | cons c r =>
    by_cases hc : c = '&'
    · subst hc
      rw [splitOnAmp_cons_amp]
      simp
    · rw [splitOnAmp_cons_noamp (by simpa using hc)]
      cases hsp : splitOnAmp r <;> simp

lemma splitOnAmp_no_amp : ∀ {l : List Char}, (∀ c ∈ l, c ≠ '&') →
    splitOnAmp l = [l] := by
  intro l
  induction l with
  | nil => intro h; rfl
  | cons c l ih =>
    intro h
    have hc : (c == '&') = false := by
      simpa using h c (List.mem_cons_self c l)
    have hrec : splitOnAmp l = [l] :=
      ih (fun x hx => h x (List.mem_cons_of_mem c hx))
    rw [splitOnAmp_cons_noamp hc, hrec]

lemma splitOnAmp_append : ∀ {s : List Char}, (∀ c ∈ s, c ≠ '&') →
    ∀ r, splitOnAmp (s ++ '&' :: r) = s :: splitOnAmp r := by
  intro s
  induction s with
  | nil =>
    intro _ r
    rw [List.nil_append, splitOnAmp_cons_amp]
  | cons c s ih =>
    intro h r
    have hc : (c == '&') = false := by
      simpa using h c (List.mem_cons_self c s)
    have hrec := ih (fun x hx => h x (List.mem_cons_of_mem c hx)) r
    rw [List.cons_append, splitOnAmp_cons_noamp hc, hrec]

lemma parseSeg_eq {k v : List Char} (hk : ∀ c ∈ k, c ≠ '=') :
    (k ++ '=' :: v).takeWhile (fun c => !(c == '=')) = k ∧
    ((k ++ '=' :: v).dropWhile (fun c => !(c == '='))).drop 1 = v := by
  have hall : k.all (fun c => !(c == '=')) = true :=
    List.all_eq_true.mpr (fun c hc => by simpa using hk c hc)
  refine ⟨takeWhile_append_cons hall (by simp) v, ?_⟩
  rw [dropWhile_append_cons hall (by simp) v]
  rfl

lemma query_roundtrip : ∀ {q : List (List Char × List Char)}, QueryWF q →
    parseQueryString (serializeQuery q) = q := by
  intro q
  induction q with
  | nil => intro _; rfl
  | cons p rest ih =>
    intro h
    have hp := h p (List.mem_cons_self p rest)
    have hrest : QueryWF rest := fun x hx => h x (List.mem_cons_of_mem p hx)
    have hknoeq : ∀ c ∈ p.1, c ≠ '=' := fun c hc => (hp.1 c hc).2.1
    have hsegno : ∀ c ∈ p.1 ++ '=' :: p.2, c ≠ '&' := by
      intro c hc
      rcases List.mem_append.mp hc with h1 | h2
      · exact (hp.1 c h1).1
      · rcases List.mem_cons.mp h2 with h3 | h4
        · subst h3; simp
        · exact (hp.2 c h4).1
    have hne : (p.1 ++ '=' :: p.2).isEmpty = false := by
      simp
    cases rest with
    | nil =>
      show parseQueryString (p.1 ++ '=' :: p.2) = [p]
      unfold parseQueryString
      rw [splitOnAmp_no_amp hsegno]
      simp only [List.filterMap_cons, List.filterMap_nil, hne,
        Bool.false_eq_true, if_false]
      rw [(parseSeg_eq hknoeq).1, (parseSeg_eq hknoeq).2]
    | cons p2 rest2 =>
      show parseQueryString
          (p.1 ++ '=' :: p.2 ++ '&' :: serializeQuery (p2 :: rest2)) =
        p :: p2 :: rest2
      have hassoc : p.1 ++ '=' :: p.2 ++ '&' :: serializeQuery (p2 :: rest2) =
          (p.1 ++ '=' :: p.2) ++ '&' :: serializeQuery (p2 :: rest2) := by
        simp [List.append_assoc]
      rw [hassoc]
      unfold parseQueryString
      rw [splitOnAmp_append hsegno]
      simp only [List.filterMap_cons, hne, Bool.false_eq_true, if_false]
      rw [(parseSeg_eq hknoeq).1, (parseSeg_eq hknoeq).2]
      have := ih hrest
      unfold parseQueryString at this
      rw [this]

lemma serialize_no_hash : ∀ {q : List (List Char × List Char)}, QueryWF q →
    ∀ c ∈ serializeQuery q, c ≠ '#' := by
  intro q
  induction q with
  | nil => intro _ c hc; simp [serializeQuery] at hc
  | cons p rest ih =>
    intro h c hc
    have hp := h p (List.mem_cons_self p rest)
    have hrest : QueryWF rest := fun x hx => h x (List.mem_cons_of_mem p hx)
    cases rest with
    | nil =>
      rw [show serializeQuery [p] = p.1 ++ '=' :: p.2 from rfl] at hc
      rcases List.mem_append.mp hc with h1 | h2
      · exact (hp.1 c h1).2.2
      · rcases List.mem_cons.mp h2 with h3 | h4
        · subst h3; simp
        · exact (hp.2 c h4).2
    | cons p2 rest2 =>
      rw [show serializeQuery (p :: p2 :: rest2) =
          p.1 ++ '=' :: p.2 ++ '&' :: serializeQuery (p2 :: rest2) from
        rfl] at hc
      rcases List.mem_append.mp hc with h1 | h2
      · rcases List.mem_append.mp h1 with h3 | h4
        · exact (hp.1 c h3).2.2
        · rcases List.mem_cons.mp h4 with h5 | h6
          · subst h5; simp
          · exact (hp.2 c h6).2
      · rcases List.mem_cons.mp h2 with h7 | h8
        · subst h7; simp
        · exact ih hrest c h8

lemma splitOnAmp_mem_sub : ∀ {l : List Char} {s : List Char},
    s ∈ splitOnAmp l → ∀ c ∈ s, c ∈ l ∧ c ≠ '&' := by
  intro l
  induction l with
  | nil =>
    intro s hs c hc
    have : s = [] := by
      have h := hs
      rw [show splitOnAmp [] = [[]] from rfl] at h
      simpa using h
    subst this
    simp at hc
  | cons a l ih =>
    intro s hs c hc
    by_cases ha : a = '&'
    · subst ha
      rw [splitOnAmp_cons_amp] at hs
      rcases List.mem_cons.mp hs with h1 | h2
      · subst h1; simp at hc
      · obtain ⟨hmem, hne⟩ := ih h2 c hc
        exact ⟨List.mem_cons_of_mem _ hmem, hne⟩
    · rw [splitOnAmp_cons_noamp (by simpa using ha)] at hs
      cases hsp : splitOnAmp l with
      | nil => exact absurd hsp (splitOnAmp_ne_nil l)
      | cons s0 ss =>
        rw [hsp] at hs
        rcases List.mem_cons.mp hs with h1 | h2
        · subst h1
          rcases List.mem_cons.mp hc with h3 | h4
          · subst h3
            exact ⟨List.mem_cons_self _ _, ha⟩
          · obtain ⟨hmem, hne⟩ :=
              ih (hsp ▸ List.mem_cons_self s0 ss) c h4
            exact ⟨List.mem_cons_of_mem _ hmem, hne⟩
        · obtain ⟨hmem, hne⟩ :=
            ih (hsp ▸ List.mem_cons_of_mem s0 h2) c hc
          exact ⟨List.mem_cons_of_mem _ hmem, hne⟩

lemma parseQueryString_wf {l : List Char} (hn : ∀ c ∈ l, c ≠ '#') :
    QueryWF (parseQueryString l) := by
  intro p hp
  unfold parseQueryString at hp
  obtain ⟨seg, hseg, hf⟩ := List.mem_filterMap.mp hp
  by_cases hemp : seg.isEmpty
  · rw [if_pos hemp] at hf
    exact absurd hf (by simp)
  · rw [if_neg hemp] at hf
    injection hf with hf
    subst hf
    have hsub := splitOnAmp_mem_sub hseg
    constructor
    · intro c hc
      have hcseg : c ∈ seg :=
        (List.takeWhile_sublist (fun c => !(c == '='))).mem hc
      have hkeep : (fun c => !(c == '=')) c = true := by
        have := all_takeWhile (fun c => !(c == '=')) seg
        exact List.all_eq_true.mp this c hc
      refine ⟨(hsub c hcseg).2, by simpa using hkeep, hn c (hsub c hcseg).1⟩
    · intro c hc
      have hcseg : c ∈ seg := by
        have h1 : c ∈ seg.dropWhile (fun c => !(c == '=')) :=
          (List.drop_sublist 1 _).mem hc
        exact (List.dropWhile_sublist (fun c => !(c == '='))).mem h1
      exact ⟨(hsub c hcseg).2, hn c (hsub c hcseg).1⟩

lemma path_shape (rest : List Char) :
    (rest.dropWhile isHostChar).takeWhile isPathChar = [] ∨
    ∃ t, (rest.dropWhile isHostChar).takeWhile isPathChar = '/' :: t := by
  cases hd : rest.dropWhile isHostChar with
  | nil => left; rfl
  | cons c r =>
    have hc : isHostChar c = false := by
      have := List.head?_dropWhile_not isHostChar rest
      rw [hd] at this
      simpa using this
    unfold isHostChar at hc
    simp only [Bool.not_eq_false', Bool.or_eq_true, beq_iff_eq] at hc
    rcases hc with (h47 | h63) | h35
    · have hcc : c = '/' := char_toNat_inj (by rw [h47]; rfl)
      subst hcc
      right
      rw [List.takeWhile_cons]
      simp only [show isPathChar '/' = true from rfl, if_true]
      exact ⟨_, rfl⟩
    · left
      rw [List.takeWhile_cons]
      have : isPathChar c = false := by
        unfold isPathChar
        simp [h63]
      simp [this]
    · left
      rw [List.takeWhile_cons]
      have : isPathChar c = false := by
        unfold isPathChar
        simp [h35]
      simp [this]

lemma parse_wf : ∀ {l : List Char} {u : UrlParts},
    parseUrl l = some u → ParseWF u := by
  intro l u h
  unfold parseUrl at h
  split at h
  · next rest heq =>
    unfold parseTail at h
    by_cases h1 : (l.takeWhile isSchemeChar).isEmpty
    · rw [if_pos h1] at h
      exact absurd h (by simp)
    · rw [if_neg h1] at h
      by_cases h2 : ((rest.takeWhile isHostChar).isEmpty)
      · rw [if_pos h2] at h
        exact absurd h (by simp)
      · rw [if_neg h2] at h
        have hsch : l.takeWhile isSchemeChar ≠ [] := by
          simpa [List.isEmpty_iff] using h1
        have hhost : rest.takeWhile isHostChar ≠ [] := by
          simpa [List.isEmpty_iff] using h2
        split at h <;> injection h with h <;> subst h <;>
          refine ⟨hsch, all_takeWhile _ _, hhost, all_takeWhile _ _,
            all_takeWhile _ _, path_shape rest, ?_⟩
        · next rest2 _ =>
          apply parseQueryString_wf
          intro c hc
          have := List.all_eq_true.mp
            (all_takeWhile (fun c => !(c == '#')) rest2) c hc
          simpa using this
        · intro p hp
          simp at hp
        · intro p hp
          simp at hp
  · exact absurd h (by simp)

lemma host_span (host path Q : List Char) (hh2 : host.all isHostChar = true)
    (hph : path = [] ∨ ∃ t, path = '/' :: t)
    (hQ : Q = [] ∨ ∃ s, Q = '?' :: s) :
    (host ++ (path ++ Q)).takeWhile isHostChar = host ∧
    (host ++ (path ++ Q)).dropWhile isHostChar = path ++ Q := by
  rcases hph with h0 | ⟨t, ht⟩
  · subst h0
    rcases hQ with h1 | ⟨s, hs⟩
    · subst h1
      simp only [List.nil_append, List.append_nil]
      exact ⟨takeWhile_of_all hh2, dropWhile_of_all hh2⟩
    · subst hs
      simp only [List.nil_append]
      exact ⟨takeWhile_append_cons hh2 (by decide) s,
             dropWhile_append_cons hh2 (by decide) s⟩
  · subst ht
    rw [List.cons_append]
    exact ⟨takeWhile_append_cons hh2 (by decide) _,
           dropWhile_append_cons hh2 (by decide) _⟩

lemma path_span (path Q : List Char) (hpa : path.all isPathChar = true)
    (hQ : Q = [] ∨ ∃ s, Q = '?' :: s) :
    (path ++ Q).takeWhile isPathChar = path ∧
    (path ++ Q).dropWhile isPathChar = Q := by
  rcases hQ with h1 | ⟨s, hs⟩
  · subst h1
    rw [List.append_nil]
    exact ⟨takeWhile_of_all hpa, dropWhile_of_all hpa⟩
  · subst hs
    exact ⟨takeWhile_append_cons hpa (by decide) s,
           dropWhile_append_cons hpa (by decide) s⟩

lemma urlToString_decomp (u : UrlParts) (hf : u.fragment = []) :
    urlToString u = u.protocol ++ ':' :: '/' :: '/' ::
      (u.host ++ (u.pathname ++
        (if u.searchParams.isEmpty then []
         else '?' :: serializeQuery u.searchParams))) := by
  unfold urlToString
  rw [hf]
  simp [List.append_assoc]

lemma parse_urlToString : ∀ {u : UrlParts}, NormWF u →
    parseUrl (urlToString u) = some u := by
  intro u h
  obtain ⟨⟨hp1, hp2, hh1, hh2, hpa, hph, hq⟩, hf⟩ := h
  rcases u with ⟨proto, host, path, sp, frag⟩
  dsimp only at hp1 hp2 hh1 hh2 hpa hph hq hf
  subst hf
  have hQshape : (if sp.isEmpty then []
      else '?' :: serializeQuery sp : List Char) = [] ∨
      ∃ s, (if sp.isEmpty then []
        else '?' :: serializeQuery sp : List Char) = '?' :: s := by
    by_cases hsp : sp.isEmpty = true <;> simp [hsp]
  rw [urlToString_decomp ⟨proto, host, path, sp, []⟩ rfl]
  dsimp only
  rw [parseUrl_of_shape _ _ (dropWhile_append_cons hp2 (by decide) _)]
  rw [takeWhile_append_cons hp2 (by decide) _]
  unfold parseTail
  rw [(host_span host path _ hh2 hph hQshape).1,
      (host_span host path _ hh2 hph hQshape).2,
      (path_span path _ hpa hQshape).1,
      (path_span path _ hpa hQshape).2]
  rw [if_neg (by simp [List.isEmpty_iff, hp1]),
      if_neg (by simp [List.isEmpty_iff, hh1])]
  by_cases hsp : sp.isEmpty = true
  · have hsp0 : sp = [] := List.isEmpty_iff.mp hsp
    subst hsp0
    simp
  · rw [if_neg hsp]
    have hall : (serializeQuery sp).all (fun c => !(c == '#')) = true :=
      List.all_eq_true.mpr
        (fun c hc => by simpa using serialize_no_hash hq c hc)
    show some (⟨proto, host, path,
      parseQueryString
        ((serializeQuery sp).takeWhile (fun c => !(c == '#'))),
      ((serializeQuery sp).dropWhile (fun c => !(c == '#'))).drop 1⟩ :
        UrlParts) = some ⟨proto, host, path, sp, []⟩
    rw [takeWhile_of_all hall, dropWhile_of_all hall, query_roundtrip hq]
    rfl

lemma normRec_wf {u : UrlParts} (h : ParseWF u) : NormWF (normRec u) := by
  obtain ⟨hp1, hp2, hh1, hh2, hpa, hph, hq⟩ := h
  refine ⟨⟨?_, ?_, ?_, ?_, ?_, ?_, ?_⟩, rfl⟩
  · simpa [normRec, lowerList] using hp1
  · show (lowerList u.protocol).all isSchemeChar = true
    rw [lowerList, List.all_map,
      show (isSchemeChar ∘ lowerChar) = isSchemeChar from
        funext isSchemeChar_lower]
    exact hp2
  · simpa [normRec, lowerList] using hh1
  · show (lowerList u.host).all isHostChar = true
    rw [lowerList, List.all_map,
      show (isHostChar ∘ lowerChar) = isHostChar from
        funext isHostChar_lower]
    exact hh2
  · simp only [normRec]
    split
    · apply List.all_eq_true.mpr
      intro x hx
      exact List.all_eq_true.mp hpa x ((List.dropLast_sublist _).mem hx)
    · exact hpa
  · simp only [normRec]
    split
    · next hcond =>
      rcases hph with h0 | ⟨t, ht⟩
      · rw [h0] at hcond
        simp at hcond
      · cases t with
        | nil =>
          rw [ht] at hcond
          simp at hcond
        | cons x t2 =>
          right
          rw [ht]
          simp [List.dropLast]
    · exact hph
  · simp only [normRec]
    intro p hp
    exact hq p (List.mem_of_mem_filter
      ((List.perm_insertionSort keyLE _).mem_iff.mp hp))

lemma normRec_idem (u : UrlParts)
    (hc : ¬((normRec u).pathname.length > 1 ∧
        (normRec u).pathname.getLast? = some '/')) :
    normRec (normRec u) = normRec u := by
  unfold normRec at hc ⊢
  dsimp only at hc ⊢
  simp only [UrlParts.mk.injEq]
  refine ⟨lowerList_idem _, lowerList_idem _, if_neg hc, ?_, trivial⟩
  have hfe : List.filter (fun p => !(trackingParams.contains p.1))
      (List.insertionSort keyLE
        (u.searchParams.filter (fun p => !(trackingParams.contains p.1)))) =
      List.insertionSort keyLE
        (u.searchParams.filter (fun p => !(trackingParams.contains p.1))) :=
    List.filter_eq_self.mpr
      (fun x hx => (List.mem_filter.mp
        ((List.perm_insertionSort keyLE _).mem_iff.mp hx)).2)
  rw [hfe]
  exact List.Sorted.insertionSort_eq (List.sorted_insertionSort keyLE _)

/-! ## Claim C8: normalizeUrl termination, fallback and idempotence -/

/-- Counterexample to claim C8 as stated: `normalizeUrl` strips only one
trailing slash from the pathname per call, so on `http://x.com/a//` a second
application strips a second slash and the result changes — the function is
not idempotent. -/
theorem normalizeUrl_not_idempotent :
    normalizeUrl "http://x.com/a//" = "http://x.com/a/" ∧
    normalizeUrl (normalizeUrl "http://x.com/a//") = "http://x.com/a" ∧
    normalizeUrl (normalizeUrl "http://x.com/a//") ≠
      normalizeUrl "http://x.com/a//" :=
  ⟨by decide, by decide, by decide⟩

/-- Claim C8 amended: `normalizeUrl` is a total function (it never raises);
on malformed input it falls back to lower-casing plus trailing-slash
stripping of the raw string, and on that branch it is idempotent; on
well-formed input it is idempotent provided the normalized pathname does not
still end with a strippable trailing slash — each application removes at
most one trailing slash, so pathnames ending in several slashes need one
further application per extra slash. -/
theorem normalizeUrl_spec (u : String) :
    (parseUrl u.data = none →
      normalizeUrl u = String.mk (stripTrailingSlashes (lowerList u.data)) ∧
      normalizeUrl (normalizeUrl u) = normalizeUrl u) ∧
    (∀ r, parseUrl u.data = some r →
      ¬((normRec r).pathname.length > 1 ∧
          (normRec r).pathname.getLast? = some '/') →
      normalizeUrl (normalizeUrl u) = normalizeUrl u) := by
  constructor
  · intro h
    have h1 : normalizeUrl u =
        String.mk (stripTrailingSlashes (lowerList u.data)) := by
      unfold normalizeUrl normalizeUrlList
      rw [h]
    refine ⟨h1, ?_⟩
    rw [h1]
    have h3 : parseUrl (stripTrailingSlashes (lowerList u.data)) = none :=
      parse_strip_none (parse_lower_none h)
    unfold normalizeUrl normalizeUrlList
    rw [show (String.mk (stripTrailingSlashes (lowerList u.data))).data =
        stripTrailingSlashes (lowerList u.data) from rfl]
    rw [h3]
    congr 1
    rw [strip_lower_comm, lowerList_idem, strip_idem]
  · intro r h hcond
    have hnw : NormWF (normRec r) := normRec_wf (parse_wf h)
    have h1 : normalizeUrl u = String.mk (urlToString (normRec r)) := by
      unfold normalizeUrl normalizeUrlList
      rw [h]
    rw [h1]
    unfold normalizeUrl normalizeUrlList
    rw [show (String.mk (urlToString (normRec r))).data =
        urlToString (normRec r) from rfl]
    rw [parse_urlToString hnw]
    show String.mk (urlToString (normRec (normRec r))) =
      String.mk (urlToString (normRec r))
    rw [normRec_idem r hcond]

/-- Witness for C8's amended claim: a malformed input (fallback branch) and a
well-formed input with no residual trailing slash. -/
theorem normalizeUrl_spec_witness :
    (parseUrl ("not a url//".data) = none ∧
     normalizeUrl "not a url//" =
       String.mk (stripTrailingSlashes (lowerList ("not a url//".data))) ∧
     normalizeUrl (normalizeUrl "not a url//") = normalizeUrl "not a url//") ∧
    (parseUrl ("http://x.com/a".data) =
       some ⟨"http".data, "x.com".data, "/a".data, [], []⟩ ∧
     normalizeUrl (normalizeUrl "http://x.com/a") =
       normalizeUrl "http://x.com/a") :=
  ⟨⟨by decide, ((normalizeUrl_spec "not a url//").1 (by decide)).1,
    ((normalizeUrl_spec "not a url//").1 (by decide)).2⟩,
   ⟨by decide, (normalizeUrl_spec "http://x.com/a").2
      ⟨"http".data, "x.com".data, "/a".data, [], []⟩ (by decide)
      (by decide)⟩⟩

end RaindropSync
